import Mathlib

/-!
Verification of the investment accrual engine of
`backend/services/calculations.py` (robert-ventures-investordesk).

Calendar dates (Python `datetime` values truncated to UTC start of day by
`to_utc_start_of_day`) are embedded as year/month/day triples.  Chronological
comparison of such datetimes coincides with comparison of their day numbers
(`toRD`, a Rata-Die-style day count), and `timedelta` subtraction yields the
difference of the day numbers.  Monetary arithmetic (Python floats with
`round(x * 100) / 100` at every step, where `round` is Python's
round-half-to-even) is embedded as exact rational arithmetic with
round-half-to-even to cents.
-/

/-- A calendar date: the `year`/`month`/`day` fields of a Python `datetime`
truncated to UTC midnight. -/
structure Date where
  year : ℕ
  month : ℕ
  day : ℕ
deriving DecidableEq, Repr

/-- Number of days in month `m` of year `y` under the Gregorian leap rule of
Python's `datetime` calendar.  This is the value computed by
`get_days_in_month_utc` in the source (first day of the next month minus one
day, then taking the day-of-month), written out as the standard table. -/
def days_in_month (y m : ℕ) : ℕ :=
  if m = 2 then (if y % 4 = 0 ∧ (y % 100 ≠ 0 ∨ y % 400 = 0) then 29 else 28)
  else if m = 4 ∨ m = 6 ∨ m = 9 ∨ m = 11 then 30
  else 31

/-- `get_days_in_month_utc` from the source, taking the date whose month is
being measured. -/
def get_days_in_month_utc (d : Date) : ℕ :=
  days_in_month d.year d.month

/-- A date is valid when it denotes an actual calendar day (with a positive
year; every date handled by the engine is far later than year 1). -/
def Date.Valid (d : Date) : Prop :=
  1 ≤ d.year ∧ 1 ≤ d.month ∧ d.month ≤ 12 ∧ 1 ≤ d.day ∧ d.day ≤ days_in_month d.year d.month

instance (d : Date) : Decidable d.Valid := by
  unfold Date.Valid; infer_instance

/-- Shifted year of the March-based civil calendar (Jan/Feb count toward the
preceding year). -/
def shiftY (d : Date) : ℤ :=
  if d.month ≤ 2 then (d.year : ℤ) - 1 else (d.year : ℤ)

/-- Shifted month index of the March-based civil calendar (March = 0). -/
def shiftM (d : Date) : ℤ :=
  if d.month ≤ 2 then (d.month : ℤ) + 9 else (d.month : ℤ) - 3

/-- Day number of a date (days elapsed since a fixed epoch), via the standard
civil-calendar formula (March-based year).  Python `datetime` comparison is
chronological order, i.e. comparison of these day numbers, and
`(b - a).days` equals `toRD b - toRD a`. -/
def toRD (d : Date) : ℤ :=
  shiftY d * 365 + shiftY d / 4 - shiftY d / 100 + shiftY d / 400
    + (153 * shiftM d + 2) / 5 + (d.day : ℤ) - 1

/-- Chronological strict comparison of dates (`<` on Python datetimes). -/
def dateLt (a b : Date) : Bool := decide (toRD a < toRD b)

/-- Chronological non-strict comparison of dates (`<=` on Python datetimes). -/
def dateLe (a b : Date) : Bool := decide (toRD a ≤ toRD b)

/-- `(b - a).days` for two midnight datetimes. -/
def diffDays (a b : Date) : ℤ := toRD b - toRD a

/-- `diff_days_inclusive` from the source: `(end - start).days + 1`. -/
def diff_days_inclusive (a b : Date) : ℤ := diffDays a b + 1

/-- The calendar day after `d`: `add_days_utc(date, 1)` from the source. -/
def nextDay (d : Date) : Date :=
  if d.day < days_in_month d.year d.month then ⟨d.year, d.month, d.day + 1⟩
  else if d.month < 12 then ⟨d.year, d.month + 1, 1⟩
  else ⟨d.year + 1, 1, 1⟩

/-- The calendar day before `d`: `add_days_utc(date, -1)` from the source. -/
def prevDay (d : Date) : Date :=
  if 1 < d.day then ⟨d.year, d.month, d.day - 1⟩
  else if 1 < d.month then ⟨d.year, d.month - 1, days_in_month d.year (d.month - 1)⟩
  else ⟨d.year - 1, 12, 31⟩

/-- The last day of `d`'s month: `datetime(cursor.year, cursor.month,
days_in_month)` as built in the source. -/
def monthEnd (d : Date) : Date :=
  ⟨d.year, d.month, days_in_month d.year d.month⟩

/-- `confirmed_date + relativedelta(years=n)`: same month, day clamped to the
length of the target month (`dateutil` clamps Feb 29 to Feb 28). -/
def addYears (d : Date) (n : ℕ) : Date :=
  ⟨d.year + n, d.month, min d.day (days_in_month (d.year + n) d.month)⟩

/-!  Monetary arithmetic.  Python `round` is round-half-to-even; every
monetary step in the source is `round(x * 100) / 100`. -/

/-- Floor of a rational, written on the numerator/denominator so that it
evaluates by kernel reduction (equal to `⌊q⌋`, see `ratFloor_eq`). -/
def ratFloor (q : ℚ) : ℤ := q.num / (q.den : ℤ)

/-- Round-half-to-even to the nearest integer (Python's `round`). -/
def rhe (q : ℚ) : ℤ :=
  if q - ratFloor q < 1 / 2 then ratFloor q
  else if (1 : ℚ) / 2 < q - ratFloor q then ratFloor q + 1
  else if 2 ∣ ratFloor q then ratFloor q else ratFloor q + 1

/-- `round(x * 100) / 100` from the source: round to cents. -/
def round2 (q : ℚ) : ℚ := (rhe (q * 100) : ℚ) / 100

/-- A rational that is a whole number of cents (all monetary state reached
from a whole-cent principal stays in this set). -/
def CentMul (q : ℚ) : Prop := ∃ k : ℤ, q = (k : ℚ) / 100

/-- `RATES.get(lockup_period, 0.08)`: the hardcoded APY table with its
silent 8% default for unrecognized (or missing) lockup periods. -/
def RATES_get (lp : Option String) : ℚ :=
  match lp with
  | some s => if s = "1-year" then 8 / 100 else if s = "3-year" then 10 / 100 else 8 / 100
  | none => 8 / 100

/-!  Timestamps and the engine's data model.  A timestamp string is embedded
at the granularity the engine inspects it: either it parses to a UTC calendar
date or `datetime.fromisoformat` raises (`TS.malformed`).  Missing dictionary
keys are `none`; present values are assumed non-empty (hence truthy), which is
what `investment.get('camelCase') or investment.get('snake_case')` relies
on. -/

/-- The engine's only failure mode: an unparseable timestamp string. -/
inductive CalcError
  | invalidTimestamp
deriving DecidableEq, Repr

/-- An ISO-8601 timestamp string: either parseable, with UTC date `d`, or
malformed. -/
inductive TS
  | iso (d : Date)
  | malformed
deriving DecidableEq, Repr

/-- `to_utc_start_of_day` from the source: parse an ISO string and truncate
to UTC midnight; a malformed string raises (propagates as `Except.error`). -/
def to_utc_start_of_day : TS → Except CalcError Date
  | TS.iso d => Except.ok d
  | TS.malformed => Except.error CalcError.invalidTimestamp

/-- `investment.get('camelKey') or investment.get('snake_key')` for non-empty
(truthy) stored values. -/
def getField {α : Type} (camel snake : Option α) : Option α :=
  match camel with
  | some v => some v
  | none => snake

/-- The investment snapshot dictionary: every field the engine reads, under
both of the key spellings the source probes. -/
structure Investment where
  amount : ℚ
  status : Option String
  confirmedAt : Option TS
  confirmed_at : Option TS
  lockupEndDate : Option TS
  lockup_end_date : Option TS
  lockupPeriod : Option String
  lockup_period : Option String
  paymentFrequency : Option String
  payment_frequency : Option String
deriving DecidableEq, Repr

/-- `investment.get('status') in ['active', 'withdrawal_notice', 'withdrawn']`. -/
def accruingStatus (st : Option String) : Bool :=
  decide (st = some "active") || decide (st = some "withdrawal_notice")
    || decide (st = some "withdrawn")

/-- Accrual segment record as built by `build_accrual_segments`. -/
inductive SegKind
  | full
  | part
deriving DecidableEq, Repr

structure Segment where
  kind : SegKind
  start : Date
  stop : Date
  days : ℤ
  daysInMon : ℤ
deriving DecidableEq, Repr

/-- Enough loop fuel to walk month-by-month from `s` to `c` (each iteration
advances the cursor by at least one day). -/
def calcFuel (s c : Date) : ℕ := (toRD c + 1 - toRD s).toNat + 1

/-- The `while cursor <= end_date` loop of `build_accrual_segments`, entered
with the cursor on the first day of a month. -/
def segsLoop : ℕ → Date → Date → List Segment
  | 0, _, _ => []
  | fuel + 1, cursor, endDate =>
    if dateLe cursor endDate then
      if dateLe (monthEnd cursor) endDate then
        Segment.mk SegKind.full cursor (monthEnd cursor)
            (get_days_in_month_utc cursor : ℤ) (get_days_in_month_utc cursor : ℤ)
          :: segsLoop fuel (nextDay (monthEnd cursor)) endDate
      else
        [Segment.mk SegKind.part cursor endDate (diff_days_inclusive cursor endDate)
          (get_days_in_month_utc cursor : ℤ)]
    else []

/-- `build_accrual_segments` from the source: split `[start, end]` into the
leading partial month (when `start` is not the 1st), the run of full months,
and the trailing partial month. -/
def build_accrual_segments (startDate endDate : Date) : List Segment :=
  if dateLt endDate startDate then []
  else if startDate.day ≠ 1 then
    Segment.mk SegKind.part startDate
        (if dateLt (monthEnd startDate) endDate then monthEnd startDate else endDate)
        (diff_days_inclusive startDate
          (if dateLt (monthEnd startDate) endDate then monthEnd startDate else endDate))
        (get_days_in_month_utc startDate : ℤ)
      :: segsLoop (calcFuel startDate endDate)
          (nextDay (if dateLt (monthEnd startDate) endDate then monthEnd startDate else endDate))
          endDate
  else segsLoop (calcFuel startDate endDate) startDate endDate

/-- `calculate_months_elapsed` from the source: 1.0 per full month,
`days / days_in_month` per partial month. -/
def calculate_months_elapsed (segs : List Segment) : ℚ :=
  segs.foldl
    (fun acc s =>
      match s.kind with
      | SegKind.full => acc + 1
      | SegKind.part => acc + (s.days : ℚ) / (s.daysInMon : ℚ))
    0

/-- One segment step of `calculate_compounding` on the `(balance,
total_earnings)` state, rounding after each arithmetic step. -/
def compStep (monthlyRate dailyRate : ℚ) (st : ℚ × ℚ) (seg : Segment) : ℚ × ℚ :=
  match seg.kind with
  | SegKind.full =>
    (round2 (st.1 + round2 (st.1 * monthlyRate)),
     round2 (st.2 + round2 (st.1 * monthlyRate)))
  | SegKind.part =>
    (round2 (st.1 + round2 (st.1 * dailyRate * (seg.days : ℚ))),
     round2 (st.2 + round2 (st.1 * dailyRate * (seg.days : ℚ))))

/-- `calculate_compounding` from the source: fold the segments over the
balance/earnings pair, with `daily_rate = apy / 365`. -/
def calculate_compounding (principal : ℚ) (segs : List Segment)
    (monthlyRate apy : ℚ) : ℚ × ℚ :=
  List.foldl (compStep monthlyRate (apy / 365)) (principal, 0) segs

/-- One segment step of `calculate_monthly_payout` on the accumulated
earnings. -/
def payStep (principal monthlyInterest dailyRate : ℚ) (te : ℚ) (seg : Segment) : ℚ :=
  match seg.kind with
  | SegKind.full => round2 (te + monthlyInterest)
  | SegKind.part => round2 (te + round2 (principal * dailyRate * (seg.days : ℚ)))

/-- `calculate_monthly_payout` from the source: the principal is returned
unchanged; earnings accumulate the fixed monthly interest per full month and
a daily-rate proration per partial month. -/
def calculate_monthly_payout (principal : ℚ) (segs : List Segment)
    (monthlyRate apy : ℚ) : ℚ × ℚ :=
  (principal,
   List.foldl (payStep principal (round2 (principal * monthlyRate)) (apy / 365)) 0 segs)

/-- The `while` loop of `find_last_completed_month_end`, carrying the last
month-end seen strictly before `current`. -/
def flcmeAux : ℕ → Date → Date → Option Date → Option Date
  | 0, _, _, acc => acc
  | fuel + 1, cursor, current, acc =>
    if dateLe cursor current then
      if dateLt (monthEnd cursor) current then
        flcmeAux fuel (nextDay (monthEnd cursor)) current (some (monthEnd cursor))
      else acc
    else acc

/-- `find_last_completed_month_end` from the source: the last calendar
month-end strictly before `currentDate`, or `start - 1 day` when no month has
completed (which makes the segment list empty). -/
def find_last_completed_month_end (startDate currentDate : Date) : Date :=
  match flcmeAux (calcFuel startDate currentDate) startDate currentDate none with
  | some d => d
  | none => prevDay startDate

/-- Valuation result dictionary returned by `calculate_investment_value`. -/
structure CalcResult where
  current_value : ℚ
  total_earnings : ℚ
  months_elapsed : ℚ
  is_withdrawable : Bool
  lockup_end_date : Option Date
  monthly_interest_amount : ℚ
deriving DecidableEq, Repr

/-- `calculate_investment_value` from the source.  `now` stands for the
wall-clock date used when `as_of_date` is omitted (`datetime.utcnow()`
truncated to UTC midnight); Python exceptions from timestamp parsing are the
`Except.error` branch and propagate in source order (confirmedAt, then
as_of_date, then the stored lockupEndDate). -/
def calculate_investment_value (now : Date) (investment : Option Investment)
    (as_of_date : Option TS) (includePartialMonth : Bool) :
    Except CalcError CalcResult :=
  match investment with
  | none => Except.ok ⟨0, 0, 0, false, none, 0⟩
  | some inv =>
    if ¬ accruingStatus inv.status then
      Except.ok ⟨inv.amount, 0, 0, false, none, 0⟩
    else
      match getField inv.confirmedAt inv.confirmed_at with
      | none => Except.ok ⟨inv.amount, 0, 0, false, none, 0⟩
      | some confirmationTimestamp =>
        match to_utc_start_of_day confirmationTimestamp with
        | Except.error e => Except.error e
        | Except.ok confirmedDate =>
          match (match as_of_date with
                 | some t => to_utc_start_of_day t
                 | none => Except.ok now) with
          | Except.error e => Except.error e
          | Except.ok currentDate =>
            match (match getField inv.lockupEndDate inv.lockup_end_date with
                   | some t => to_utc_start_of_day t
                   | none =>
                     Except.ok (addYears confirmedDate
                       (if getField inv.lockupPeriod inv.lockup_period = some "3-year"
                        then 3 else 1))) with
            | Except.error e => Except.error e
            | Except.ok lockupEndDate =>
              if dateLt currentDate (nextDay confirmedDate) then
                Except.ok ⟨inv.amount, 0, 0, false, some lockupEndDate,
                  if getField inv.paymentFrequency inv.payment_frequency = some "monthly"
                  then round2 (inv.amount *
                    (RATES_get (getField inv.lockupPeriod inv.lockup_period) / 12))
                  else 0⟩
              else
                let apy := RATES_get (getField inv.lockupPeriod inv.lockup_period)
                let monthlyRate := apy / 12
                let calculationEndDate :=
                  if includePartialMonth then currentDate
                  else find_last_completed_month_end (nextDay confirmedDate) currentDate
                let segments := build_accrual_segments (nextDay confirmedDate) calculationEndDate
                let paymentFrequency := getField inv.paymentFrequency inv.payment_frequency
                let cvte :=
                  if paymentFrequency = some "compounding" then
                    calculate_compounding inv.amount segments monthlyRate apy
                  else
                    calculate_monthly_payout inv.amount segments monthlyRate apy
                Except.ok ⟨round2 cvte.1, round2 cvte.2,
                  calculate_months_elapsed segments,
                  -- line 250 re-truncates as_of_date when present; that value
                  -- is currentDate in either branch
                  dateLe lockupEndDate currentDate,
                  some lockupEndDate,
                  if paymentFrequency = some "monthly" then round2 (inv.amount * monthlyRate)
                  else 0⟩

/-- The lockup end date the engine resolves: the stored parseable value if
present, else `confirmedAt + 1 or 3 calendar years`. -/
def resolvedLockupEnd (inv : Investment) (confirmedDate : Date) : Date :=
  match getField inv.lockupEndDate inv.lockup_end_date with
  | some (TS.iso l) => l
  | _ => addYears confirmedDate
      (if getField inv.lockupPeriod inv.lockup_period = some "3-year" then 3 else 1)

/-- Sum of the `days` fields of a segment list. -/
def sumDays (segs : List Segment) : ℤ :=
  segs.foldl (fun acc s => acc + s.days) 0

/-- The compounding fold of `calculate_compounding` from an arbitrary
balance/earnings state. -/
def foldComp (monthlyRate dailyRate : ℚ) (st : ℚ × ℚ) (segs : List Segment) : ℚ × ℚ :=
  List.foldl (compStep monthlyRate dailyRate) st segs

/-- The earnings fold of `calculate_monthly_payout` from an arbitrary
accumulated-earnings state. -/
def foldPay (principal monthlyInterest dailyRate : ℚ) (te : ℚ) (segs : List Segment) : ℚ :=
  List.foldl (payStep principal monthlyInterest dailyRate) te segs

/-- Invariant of the compounding fold state: both components non-negative and
whole numbers of cents. -/
def StInv (st : ℚ × ℚ) : Prop :=
  0 ≤ st.1 ∧ 0 ≤ st.2 ∧ CentMul st.1 ∧ CentMul st.2

theorem days_in_month_ge_28 (y m : ℕ) : 28 ≤ days_in_month y m := by
  unfold days_in_month; split_ifs <;> omega

theorem days_in_month_le_31 (y m : ℕ) : days_in_month y m ≤ 31 := by
  unfold days_in_month; split_ifs <;> omega

/-- `toRD` is the base of the month plus the day-of-month. -/
theorem toRD_day (y m d : ℕ) :
    toRD ⟨y, m, d⟩ = toRD ⟨y, m, 1⟩ + (d : ℤ) - 1 := by
  unfold toRD shiftY shiftM; dsimp only; ring

/-- The day number of the successor of a valid date is one more. -/
theorem toRD_nextDay (d : Date) (h : d.Valid) : toRD (nextDay d) = toRD d + 1 := by
  obtain ⟨y, m, dd⟩ := d
  obtain ⟨hy, hm1, hm12, hd1, hdlast⟩ := h
  dsimp only at *
  by_cases hlt : dd < days_in_month y m
  · have hstep : nextDay ⟨y, m, dd⟩ = ⟨y, m, dd + 1⟩ := by
      unfold nextDay; dsimp only; rw [if_pos hlt]
    rw [hstep, toRD_day y m (dd + 1), toRD_day y m dd]
    push_cast
    ring
  · have hdd : dd = days_in_month y m := by omega
    subst hdd
    have hstep : nextDay ⟨y, m, days_in_month y m⟩
        = if m < 12 then (⟨y, m + 1, 1⟩ : Date) else ⟨y + 1, 1, 1⟩ := by
      unfold nextDay; dsimp only; rw [if_neg (lt_irrefl _)]
    rw [hstep]
    interval_cases m <;>
      · simp only [toRD, shiftY, shiftM, days_in_month]
        norm_num
        try first
        | (split_ifs <;> omega)
        | omega

theorem nextDay_valid {d : Date} (h : d.Valid) : (nextDay d).Valid := by
  obtain ⟨y, m, dd⟩ := d
  obtain ⟨hy, hm1, hm12, hd1, hdl⟩ := h
  dsimp only at *
  unfold nextDay
  dsimp only
  split_ifs with h1 h2 <;>
    · unfold Date.Valid
      dsimp only
      refine ⟨?_, ?_, ?_, ?_, ?_⟩ <;>
        first
          | omega
          | exact le_trans (by norm_num) (days_in_month_ge_28 _ _)

theorem monthEnd_valid {d : Date} (h : d.Valid) : (monthEnd d).Valid := by
  obtain ⟨y, m, dd⟩ := d
  obtain ⟨hy, hm1, hm12, hd1, hdl⟩ := h
  exact ⟨hy, hm1, hm12, le_trans (by norm_num) (days_in_month_ge_28 y m), le_refl _⟩

theorem toRD_monthEnd (d : Date) :
    toRD (monthEnd d) = toRD d + ((days_in_month d.year d.month : ℤ) - (d.day : ℤ)) := by
  obtain ⟨y, m, dd⟩ := d
  show toRD ⟨y, m, days_in_month y m⟩ = toRD ⟨y, m, dd⟩ + _
  rw [toRD_day y m (days_in_month y m), toRD_day y m dd]
  dsimp only
  ring

theorem nextDay_monthEnd_day (d : Date) : (nextDay (monthEnd d)).day = 1 := by
  obtain ⟨y, m, dd⟩ := d
  show (nextDay ⟨y, m, days_in_month y m⟩).day = 1
  unfold nextDay
  dsimp only
  rw [if_neg (lt_irrefl _)]
  split_ifs <;> rfl

theorem prevDay_nextDay {d : Date} (h : d.Valid) : prevDay (nextDay d) = d := by
  obtain ⟨y, m, dd⟩ := d
  obtain ⟨hy, hm1, hm12, hd1, hdl⟩ := h
  dsimp only at *
  by_cases hlt : dd < days_in_month y m
  · have hstep : nextDay ⟨y, m, dd⟩ = ⟨y, m, dd + 1⟩ := by
      unfold nextDay; dsimp only; rw [if_pos hlt]
    rw [hstep]
    unfold prevDay
    dsimp only
    rw [if_pos (by omega)]
    simp
  · have hdd : dd = days_in_month y m := by omega
    by_cases hm : m < 12
    · have hstep : nextDay ⟨y, m, dd⟩ = ⟨y, m + 1, 1⟩ := by
        unfold nextDay; dsimp only; rw [if_neg (by omega), if_pos hm]
      rw [hstep]
      unfold prevDay
      dsimp only
      rw [if_neg (by omega), if_pos (by omega)]
      simp only [Nat.add_sub_cancel]
      rw [← hdd]
    · have hm12' : m = 12 := by omega
      subst hm12'
      have hstep : nextDay ⟨y, 12, dd⟩ = ⟨y + 1, 1, 1⟩ := by
        unfold nextDay; dsimp only; rw [if_neg (by omega), if_neg (by omega)]
      rw [hstep]
      unfold prevDay
      dsimp only
      rw [if_neg (by omega), if_neg (by omega)]
      have : days_in_month y 12 = 31 := by norm_num [days_in_month]
      simp only [Nat.add_sub_cancel]
      rw [hdd, this]

theorem toRD_addYears_ge {d : Date} (h : d.Valid) {n : ℕ} (hn : 1 ≤ n) :
    toRD d + 1 ≤ toRD (addYears d n) := by
  obtain ⟨y, m, dd⟩ := d
  obtain ⟨hy, hm1, hm12, hd1, hdl⟩ := h
  dsimp only at *
  have h28 := days_in_month_ge_28 (y + n) m
  have h31 := days_in_month_le_31 (y + n) m
  have h31' := days_in_month_le_31 y m
  unfold addYears toRD shiftY shiftM
  dsimp only
  split_ifs with hmle <;> push_cast <;> omega

theorem dateLt_iff {a b : Date} : dateLt a b = true ↔ toRD a < toRD b := by
  simp [dateLt]

theorem dateLe_iff {a b : Date} : dateLe a b = true ↔ toRD a ≤ toRD b := by
  simp [dateLe]

theorem dateLt_false_iff {a b : Date} : dateLt a b = false ↔ toRD b ≤ toRD a := by
  simp [dateLt, not_lt]

theorem dateLe_false_iff {a b : Date} : dateLe a b = false ↔ toRD b < toRD a := by
  simp [dateLe, not_le]

theorem ratFloor_eq (q : ℚ) : ratFloor q = ⌊q⌋ := by
  rw [Rat.floor_def]
  rfl

theorem rhe_ge_floor (q : ℚ) : ⌊q⌋ ≤ rhe q := by
  unfold rhe
  rw [ratFloor_eq]
  split_ifs <;> omega

theorem rhe_le_floor_add_one (q : ℚ) : rhe q ≤ ⌊q⌋ + 1 := by
  unfold rhe
  rw [ratFloor_eq]
  split_ifs <;> omega

theorem rhe_intCast (k : ℤ) : rhe (k : ℚ) = k := by
  unfold rhe
  rw [ratFloor_eq]
  norm_num [Int.floor_intCast]

theorem rhe_nonneg {q : ℚ} (h : 0 ≤ q) : 0 ≤ rhe q := by
  have h0 : 0 ≤ ⌊q⌋ := Int.floor_nonneg.mpr h
  unfold rhe
  rw [ratFloor_eq]
  split_ifs <;> omega

theorem rhe_mono {x y : ℚ} (h : x ≤ y) : rhe x ≤ rhe y := by
  by_cases hf : ⌊x⌋ < ⌊y⌋
  · calc rhe x ≤ ⌊x⌋ + 1 := rhe_le_floor_add_one x
    _ ≤ ⌊y⌋ := by omega
    _ ≤ rhe y := rhe_ge_floor y
  · have hfe : ⌊x⌋ = ⌊y⌋ := le_antisymm (Int.floor_le_floor h) (by omega)
    unfold rhe
    rw [ratFloor_eq, ratFloor_eq, hfe]
    split_ifs <;> first | omega | linarith

theorem round2_nonneg {q : ℚ} (h : 0 ≤ q) : 0 ≤ round2 q := by
  unfold round2
  have h1 : 0 ≤ rhe (q * 100) := rhe_nonneg (by positivity)
  have h2 : (0 : ℚ) ≤ (rhe (q * 100) : ℚ) := by exact_mod_cast h1
  linarith

theorem round2_mono {x y : ℚ} (h : x ≤ y) : round2 x ≤ round2 y := by
  unfold round2
  have h1 := rhe_mono (x := x * 100) (y := y * 100) (by linarith)
  have h2 : ((rhe (x * 100) : ℚ)) ≤ (rhe (y * 100) : ℚ) := by exact_mod_cast h1
  linarith

theorem round2_centMul (q : ℚ) : CentMul (round2 q) := ⟨rhe (q * 100), rfl⟩

theorem CentMul.add {a b : ℚ} (ha : CentMul a) (hb : CentMul b) : CentMul (a + b) := by
  obtain ⟨j, rfl⟩ := ha
  obtain ⟨k, rfl⟩ := hb
  exact ⟨j + k, by push_cast; ring⟩

theorem centMul_zero : CentMul 0 := ⟨0, by norm_num⟩

theorem round2_eq_self {q : ℚ} (h : CentMul q) : round2 q = q := by
  obtain ⟨k, rfl⟩ := h
  unfold round2
  have h1 : (k : ℚ) / 100 * 100 = (k : ℚ) := by field_simp
  rw [h1, rhe_intCast]

theorem round2_zero : round2 0 = 0 := round2_eq_self centMul_zero

theorem interest_part_le_full {b apy : ℚ} (hb : 0 ≤ b) (ha : 0 ≤ apy)
    {k : ℤ} (hk : k ≤ 30) :
    b * (apy / 365) * (k : ℚ) ≤ b * (apy / 12) := by
  have hk' : (k : ℚ) ≤ 30 := by exact_mod_cast hk
  have h365 : b * (apy / 365) * (k : ℚ) = (b * apy) * ((k : ℚ) / 365) := by ring
  have h12 : b * (apy / 12) = (b * apy) * (1 / 12) := by ring
  rw [h365, h12]
  apply mul_le_mul_of_nonneg_left _ (mul_nonneg hb ha)
  rw [div_le_div_iff₀ (by norm_num) (by norm_num)]
  linarith

theorem compStep_inv {mr dr : ℚ} (hmr : 0 ≤ mr) (hdr : 0 ≤ dr) {st : ℚ × ℚ}
    {seg : Segment} (hst : StInv st) (hdays : 0 ≤ seg.days) :
    StInv (compStep mr dr st seg) := by
  unfold StInv at hst ⊢
  obtain ⟨hb, ht, hcb, hct⟩ := hst
  have hdq : (0 : ℚ) ≤ (seg.days : ℚ) := by exact_mod_cast hdays
  unfold compStep
  cases hk : seg.kind <;> dsimp only
  · exact ⟨round2_nonneg (add_nonneg hb (round2_nonneg (mul_nonneg hb hmr))),
      round2_nonneg (add_nonneg ht (round2_nonneg (mul_nonneg hb hmr))),
      round2_centMul _, round2_centMul _⟩
  · exact ⟨round2_nonneg (add_nonneg hb
        (round2_nonneg (mul_nonneg (mul_nonneg hb hdr) hdq))),
      round2_nonneg (add_nonneg ht
        (round2_nonneg (mul_nonneg (mul_nonneg hb hdr) hdq))),
      round2_centMul _, round2_centMul _⟩

theorem compStep_grow {mr dr : ℚ} (hmr : 0 ≤ mr) (hdr : 0 ≤ dr) {st : ℚ × ℚ}
    {seg : Segment} (hst : StInv st) (hdays : 0 ≤ seg.days) :
    st.1 ≤ (compStep mr dr st seg).1 ∧ st.2 ≤ (compStep mr dr st seg).2 := by
  unfold StInv at hst
  obtain ⟨hb, ht, hcb, hct⟩ := hst
  have hdq : (0 : ℚ) ≤ (seg.days : ℚ) := by exact_mod_cast hdays
  unfold compStep
  cases hk : seg.kind <;> dsimp only
  · have hi0 : 0 ≤ round2 (st.1 * mr) := round2_nonneg (mul_nonneg hb hmr)
    have hic : CentMul (round2 (st.1 * mr)) := round2_centMul _
    rw [round2_eq_self (hcb.add hic), round2_eq_self (hct.add hic)]
    exact ⟨by linarith, by linarith⟩
  · have hi0 : 0 ≤ round2 (st.1 * dr * (seg.days : ℚ)) :=
      round2_nonneg (mul_nonneg (mul_nonneg hb hdr) hdq)
    have hic : CentMul (round2 (st.1 * dr * (seg.days : ℚ))) := round2_centMul _
    rw [round2_eq_self (hcb.add hic), round2_eq_self (hct.add hic)]
    exact ⟨by linarith, by linarith⟩

theorem compStep_part_mono_days {mr dr : ℚ} (hdr : 0 ≤ dr) {st : ℚ × ℚ}
    (hb : 0 ≤ st.1) {s1 s2 : Segment} (h1 : s1.kind = SegKind.part)
    (h2 : s2.kind = SegKind.part) (hd : s1.days ≤ s2.days) :
    (compStep mr dr st s1).1 ≤ (compStep mr dr st s2).1 ∧
      (compStep mr dr st s1).2 ≤ (compStep mr dr st s2).2 := by
  unfold compStep
  rw [h1, h2]
  dsimp only
  have hdd : (s1.days : ℚ) ≤ (s2.days : ℚ) := by exact_mod_cast hd
  have hi : st.1 * dr * (s1.days : ℚ) ≤ st.1 * dr * (s2.days : ℚ) :=
    mul_le_mul_of_nonneg_left hdd (mul_nonneg hb hdr)
  have hr := round2_mono hi
  exact ⟨round2_mono (by linarith), round2_mono (by linarith)⟩

theorem compStep_part_le_full {apy : ℚ} (ha : 0 ≤ apy) {st : ℚ × ℚ} (hb : 0 ≤ st.1)
    {sp sf : Segment} (hp : sp.kind = SegKind.part) (hf : sf.kind = SegKind.full)
    (hd : sp.days ≤ 30) :
    (compStep (apy / 12) (apy / 365) st sp).1 ≤ (compStep (apy / 12) (apy / 365) st sf).1 ∧
      (compStep (apy / 12) (apy / 365) st sp).2 ≤ (compStep (apy / 12) (apy / 365) st sf).2 := by
  unfold compStep
  rw [hp, hf]
  dsimp only
  have hi := interest_part_le_full hb ha hd
  have hr := round2_mono hi
  exact ⟨round2_mono (by linarith), round2_mono (by linarith)⟩

theorem payStep_inv {p mi dr : ℚ} (hmi : 0 ≤ mi) (hmic : CentMul mi) (hp : 0 ≤ p)
    (hdr : 0 ≤ dr) {te : ℚ} (hte : 0 ≤ te) (htc : CentMul te) {seg : Segment}
    (hdays : 0 ≤ seg.days) :
    te ≤ payStep p mi dr te seg ∧ 0 ≤ payStep p mi dr te seg ∧
      CentMul (payStep p mi dr te seg) := by
  have hdq : (0 : ℚ) ≤ (seg.days : ℚ) := by exact_mod_cast hdays
  unfold payStep
  cases hk : seg.kind <;> dsimp only
  · rw [round2_eq_self (htc.add hmic)]
    exact ⟨by linarith, by linarith, htc.add hmic⟩
  · have hx0 : 0 ≤ round2 (p * dr * (seg.days : ℚ)) :=
      round2_nonneg (mul_nonneg (mul_nonneg hp hdr) hdq)
    have hxc : CentMul (round2 (p * dr * (seg.days : ℚ))) := round2_centMul _
    rw [round2_eq_self (htc.add hxc)]
    exact ⟨by linarith, by linarith, htc.add hxc⟩

theorem payStep_part_mono_days {p mi dr : ℚ} (hp : 0 ≤ p) (hdr : 0 ≤ dr) {te : ℚ}
    {s1 s2 : Segment} (h1 : s1.kind = SegKind.part) (h2 : s2.kind = SegKind.part)
    (hd : s1.days ≤ s2.days) :
    payStep p mi dr te s1 ≤ payStep p mi dr te s2 := by
  unfold payStep
  rw [h1, h2]
  dsimp only
  have hdd : (s1.days : ℚ) ≤ (s2.days : ℚ) := by exact_mod_cast hd
  have hi : p * dr * (s1.days : ℚ) ≤ p * dr * (s2.days : ℚ) :=
    mul_le_mul_of_nonneg_left hdd (mul_nonneg hp hdr)
  have hr := round2_mono hi
  exact round2_mono (by linarith)

theorem payStep_part_le_full {p apy : ℚ} (hp : 0 ≤ p) (ha : 0 ≤ apy) {mi : ℚ}
    (hmi : mi = round2 (p * (apy / 12))) {te : ℚ} {sp sf : Segment}
    (hkp : sp.kind = SegKind.part) (hkf : sf.kind = SegKind.full) (hd : sp.days ≤ 30) :
    payStep p mi (apy / 365) te sp ≤ payStep p mi (apy / 365) te sf := by
  unfold payStep
  rw [hkp, hkf]
  dsimp only
  have hi := interest_part_le_full hp ha hd
  have hr := round2_mono hi
  rw [hmi]
  exact round2_mono (by linarith)

theorem foldComp_cons (mr dr : ℚ) (st : ℚ × ℚ) (a : Segment) (l : List Segment) :
    foldComp mr dr st (a :: l) = foldComp mr dr (compStep mr dr st a) l := rfl

theorem foldPay_cons (p mi dr : ℚ) (te : ℚ) (a : Segment) (l : List Segment) :
    foldPay p mi dr te (a :: l) = foldPay p mi dr (payStep p mi dr te a) l := rfl

theorem diff_days_inclusive_nonneg {a b : Date} (h : toRD a ≤ toRD b) :
    0 ≤ diff_days_inclusive a b := by
  unfold diff_days_inclusive diffDays
  omega

theorem foldComp_loop_grow {mr dr : ℚ} (hmr : 0 ≤ mr) (hdr : 0 ≤ dr) :
    ∀ (fuel : ℕ) (cursor e : Date) (st : ℚ × ℚ), StInv st →
      (st.1 ≤ (foldComp mr dr st (segsLoop fuel cursor e)).1 ∧
        st.2 ≤ (foldComp mr dr st (segsLoop fuel cursor e)).2) ∧
        StInv (foldComp mr dr st (segsLoop fuel cursor e)) := by
  intro fuel
  induction fuel with
  | zero =>
    intro cursor e st hst
    exact ⟨⟨le_refl _, le_refl _⟩, hst⟩
  | succ n ih =>
    intro cursor e st hst
    unfold segsLoop
    by_cases hc : dateLe cursor e = true
    · rw [if_pos hc]
      by_cases hm : dateLe (monthEnd cursor) e = true
      · rw [if_pos hm, foldComp_cons]
        have hdays : (0 : ℤ) ≤ (Segment.mk SegKind.full cursor (monthEnd cursor)
            ((get_days_in_month_utc cursor : ℕ) : ℤ)
            ((get_days_in_month_utc cursor : ℕ) : ℤ)).days :=
          Int.natCast_nonneg _
        obtain ⟨hg1, hg2⟩ := compStep_grow hmr hdr hst hdays
        have hst' := compStep_inv hmr hdr hst hdays
        obtain ⟨⟨hh1, hh2⟩, hinv⟩ := ih (nextDay (monthEnd cursor)) e _ hst'
        exact ⟨⟨le_trans hg1 hh1, le_trans hg2 hh2⟩, hinv⟩
      · rw [if_neg hm]
        have hdays : (0 : ℤ) ≤ (Segment.mk SegKind.part cursor e
            (diff_days_inclusive cursor e)
            ((get_days_in_month_utc cursor : ℕ) : ℤ)).days :=
          diff_days_inclusive_nonneg (dateLe_iff.mp hc)
        obtain ⟨hg1, hg2⟩ := compStep_grow hmr hdr hst hdays
        have hinv := compStep_inv hmr hdr hst hdays
        exact ⟨⟨hg1, hg2⟩, hinv⟩
    · rw [if_neg hc]
      exact ⟨⟨le_refl _, le_refl _⟩, hst⟩

theorem foldPay_loop_grow {p mi dr : ℚ} (hp : 0 ≤ p) (hmi : 0 ≤ mi)
    (hmic : CentMul mi) (hdr : 0 ≤ dr) :
    ∀ (fuel : ℕ) (cursor e : Date) (te : ℚ), 0 ≤ te → CentMul te →
      te ≤ foldPay p mi dr te (segsLoop fuel cursor e) ∧
        0 ≤ foldPay p mi dr te (segsLoop fuel cursor e) ∧
        CentMul (foldPay p mi dr te (segsLoop fuel cursor e)) := by
  intro fuel
  induction fuel with
  | zero =>
    intro cursor e te hte htc
    exact ⟨le_refl _, hte, htc⟩
  | succ n ih =>
    intro cursor e te hte htc
    unfold segsLoop
    by_cases hc : dateLe cursor e = true
    · rw [if_pos hc]
      by_cases hm : dateLe (monthEnd cursor) e = true
      · rw [if_pos hm, foldPay_cons]
        have hdays : (0 : ℤ) ≤ (Segment.mk SegKind.full cursor (monthEnd cursor)
            ((get_days_in_month_utc cursor : ℕ) : ℤ)
            ((get_days_in_month_utc cursor : ℕ) : ℤ)).days :=
          Int.natCast_nonneg _
        obtain ⟨hg, hg0, hgc⟩ := payStep_inv hmi hmic hp hdr hte htc hdays
        obtain ⟨hh, hh0, hhc⟩ := ih (nextDay (monthEnd cursor)) e _ hg0 hgc
        exact ⟨le_trans hg hh, hh0, hhc⟩
      · rw [if_neg hm]
        have hdays : (0 : ℤ) ≤ (Segment.mk SegKind.part cursor e
            (diff_days_inclusive cursor e)
            ((get_days_in_month_utc cursor : ℕ) : ℤ)).days :=
          diff_days_inclusive_nonneg (dateLe_iff.mp hc)
        obtain ⟨hg, hg0, hgc⟩ := payStep_inv hmi hmic hp hdr hte htc hdays
        exact ⟨hg, hg0, hgc⟩
    · rw [if_neg hc]
      exact ⟨le_refl _, hte, htc⟩

theorem foldComp_nil (mr dr : ℚ) (st : ℚ × ℚ) : foldComp mr dr st [] = st := rfl

theorem foldPay_nil (p mi dr : ℚ) (te : ℚ) : foldPay p mi dr te [] = te := rfl

theorem segsLoop_zero (cursor e : Date) : segsLoop 0 cursor e = [] := rfl

theorem segsLoop_stop {fuel : ℕ} {cursor e : Date} (h : toRD e < toRD cursor) :
    segsLoop fuel cursor e = [] := by
  cases fuel with
  | zero => rfl
  | succ n =>
    rw [segsLoop.eq_def]
    dsimp only
    rw [dateLe_false_iff.mpr h]
    simp

theorem segsLoop_full {fuel : ℕ} {cursor e : Date} (hc : toRD cursor ≤ toRD e)
    (hm : toRD (monthEnd cursor) ≤ toRD e) :
    segsLoop (fuel + 1) cursor e =
      Segment.mk SegKind.full cursor (monthEnd cursor)
          ((get_days_in_month_utc cursor : ℕ) : ℤ) ((get_days_in_month_utc cursor : ℕ) : ℤ)
        :: segsLoop fuel (nextDay (monthEnd cursor)) e := by
  rw [segsLoop.eq_def]
  dsimp only
  rw [dateLe_iff.mpr hc]
  rw [dateLe_iff.mpr hm]
  simp

theorem segsLoop_part {fuel : ℕ} {cursor e : Date} (hc : toRD cursor ≤ toRD e)
    (hm : toRD e < toRD (monthEnd cursor)) :
    segsLoop (fuel + 1) cursor e =
      [Segment.mk SegKind.part cursor e (diff_days_inclusive cursor e)
        ((get_days_in_month_utc cursor : ℕ) : ℤ)] := by
  rw [segsLoop.eq_def]
  dsimp only
  rw [dateLe_iff.mpr hc]
  rw [dateLe_false_iff.mpr hm]
  simp

theorem foldComp_loop_mono {apy : ℚ} (ha : 0 ≤ apy) :
    ∀ (f1 f2 : ℕ) (cursor e1 e2 : Date) (st : ℚ × ℚ),
      cursor.Valid → cursor.day = 1 →
      toRD e1 ≤ toRD e2 → StInv st →
      toRD e1 - toRD cursor < (f1 : ℤ) →
      toRD e2 - toRD cursor < (f2 : ℤ) →
      (foldComp (apy / 12) (apy / 365) st (segsLoop f1 cursor e1)).1 ≤
        (foldComp (apy / 12) (apy / 365) st (segsLoop f2 cursor e2)).1 ∧
      (foldComp (apy / 12) (apy / 365) st (segsLoop f1 cursor e1)).2 ≤
        (foldComp (apy / 12) (apy / 365) st (segsLoop f2 cursor e2)).2 := by
  have hmr : (0 : ℚ) ≤ apy / 12 := by positivity
  have hdr : (0 : ℚ) ≤ apy / 365 := by positivity
  intro f1
  induction f1 with
  | zero =>
    intro f2 cursor e1 e2 st hcv hc1 he12 hst hs1 hs2
    rw [segsLoop_zero, foldComp_nil]
    exact (foldComp_loop_grow hmr hdr f2 cursor e2 st hst).1
  | succ n ih =>
    intro f2 cursor e1 e2 st hcv hc1 he12 hst hs1 hs2
    by_cases hce1 : toRD cursor ≤ toRD e1
    · have hce2 : toRD cursor ≤ toRD e2 := le_trans hce1 he12
      cases f2 with
      | zero => exfalso; push_cast at hs2; omega
      | succ m =>
        have hrdme := toRD_monthEnd cursor
        rw [hc1] at hrdme
        have h28 := days_in_month_ge_28 cursor.year cursor.month
        have h31 := days_in_month_le_31 cursor.year cursor.month
        have hmev : (monthEnd cursor).Valid := monthEnd_valid hcv
        have hrdc' : toRD (nextDay (monthEnd cursor)) = toRD (monthEnd cursor) + 1 :=
          toRD_nextDay _ hmev
        by_cases hme1 : toRD (monthEnd cursor) ≤ toRD e1
        · rw [segsLoop_full hce1 hme1, segsLoop_full hce2 (le_trans hme1 he12),
            foldComp_cons, foldComp_cons]
          have hdays : (0 : ℤ) ≤ (Segment.mk SegKind.full cursor (monthEnd cursor)
              ((get_days_in_month_utc cursor : ℕ) : ℤ)
              ((get_days_in_month_utc cursor : ℕ) : ℤ)).days :=
            Int.natCast_nonneg _
          have hst' := compStep_inv hmr hdr hst hdays
          apply ih m (nextDay (monthEnd cursor)) e1 e2 _
            (nextDay_valid hmev) (nextDay_monthEnd_day cursor) he12 hst'
          · push_cast at hs1 ⊢
            omega
          · push_cast at hs2 ⊢
            omega
        · rw [segsLoop_part hce1 (by omega)]
          have hdays1 : (0 : ℤ) ≤ (Segment.mk SegKind.part cursor e1
              (diff_days_inclusive cursor e1)
              ((get_days_in_month_utc cursor : ℕ) : ℤ)).days :=
            diff_days_inclusive_nonneg hce1
          have hd30 : (Segment.mk SegKind.part cursor e1
              (diff_days_inclusive cursor e1)
              ((get_days_in_month_utc cursor : ℕ) : ℤ)).days ≤ 30 := by
            show diff_days_inclusive cursor e1 ≤ 30
            unfold diff_days_inclusive diffDays
            unfold get_days_in_month_utc at *
            omega
          by_cases hme2 : toRD (monthEnd cursor) ≤ toRD e2
          · rw [segsLoop_full hce2 hme2, foldComp_cons, foldComp_cons, foldComp_nil]
            have hcomp := compStep_part_le_full ha hst.1
              (show (Segment.mk SegKind.part cursor e1 (diff_days_inclusive cursor e1)
                  ((get_days_in_month_utc cursor : ℕ) : ℤ)).kind = SegKind.part from rfl)
              (show (Segment.mk SegKind.full cursor (monthEnd cursor)
                  ((get_days_in_month_utc cursor : ℕ) : ℤ)
                  ((get_days_in_month_utc cursor : ℕ) : ℤ)).kind = SegKind.full from rfl)
              hd30
            have hdaysF : (0 : ℤ) ≤ (Segment.mk SegKind.full cursor (monthEnd cursor)
                ((get_days_in_month_utc cursor : ℕ) : ℤ)
                ((get_days_in_month_utc cursor : ℕ) : ℤ)).days :=
              Int.natCast_nonneg _
            have hstF := compStep_inv hmr hdr hst hdaysF
            obtain ⟨⟨hg1, hg2⟩, _⟩ := foldComp_loop_grow hmr hdr m
              (nextDay (monthEnd cursor)) e2 _ hstF
            exact ⟨le_trans hcomp.1 hg1, le_trans hcomp.2 hg2⟩
          · rw [segsLoop_part hce2 (by omega), foldComp_cons, foldComp_cons,
              foldComp_nil, foldComp_nil]
            have hdmono : diff_days_inclusive cursor e1 ≤ diff_days_inclusive cursor e2 := by
              unfold diff_days_inclusive diffDays
              omega
            exact compStep_part_mono_days hdr hst.1
              (show (Segment.mk SegKind.part cursor e1 (diff_days_inclusive cursor e1)
                  ((get_days_in_month_utc cursor : ℕ) : ℤ)).kind = SegKind.part from rfl)
              (show (Segment.mk SegKind.part cursor e2 (diff_days_inclusive cursor e2)
                  ((get_days_in_month_utc cursor : ℕ) : ℤ)).kind = SegKind.part from rfl)
              hdmono
    · rw [segsLoop_stop (by omega), foldComp_nil]
      exact (foldComp_loop_grow hmr hdr f2 cursor e2 st hst).1

theorem foldPay_loop_mono {p apy : ℚ} (hp : 0 ≤ p) (ha : 0 ≤ apy) :
    ∀ (f1 f2 : ℕ) (cursor e1 e2 : Date) (te : ℚ),
      cursor.Valid → cursor.day = 1 →
      toRD e1 ≤ toRD e2 → 0 ≤ te → CentMul te →
      toRD e1 - toRD cursor < (f1 : ℤ) →
      toRD e2 - toRD cursor < (f2 : ℤ) →
      foldPay p (round2 (p * (apy / 12))) (apy / 365) te (segsLoop f1 cursor e1) ≤
        foldPay p (round2 (p * (apy / 12))) (apy / 365) te (segsLoop f2 cursor e2) := by
  have hdr : (0 : ℚ) ≤ apy / 365 := by positivity
  have hmi : (0 : ℚ) ≤ round2 (p * (apy / 12)) := round2_nonneg (by positivity)
  have hmic : CentMul (round2 (p * (apy / 12))) := round2_centMul _
  intro f1
  induction f1 with
  | zero =>
    intro f2 cursor e1 e2 te hcv hc1 he12 hte htc hs1 hs2
    rw [segsLoop_zero, foldPay_nil]
    exact (foldPay_loop_grow hp hmi hmic hdr f2 cursor e2 te hte htc).1
  | succ n ih =>
    intro f2 cursor e1 e2 te hcv hc1 he12 hte htc hs1 hs2
    by_cases hce1 : toRD cursor ≤ toRD e1
    · have hce2 : toRD cursor ≤ toRD e2 := le_trans hce1 he12
      cases f2 with
      | zero => exfalso; push_cast at hs2; omega
      | succ m =>
        have hrdme := toRD_monthEnd cursor
        rw [hc1] at hrdme
        have h28 := days_in_month_ge_28 cursor.year cursor.month
        have h31 := days_in_month_le_31 cursor.year cursor.month
        have hmev : (monthEnd cursor).Valid := monthEnd_valid hcv
        have hrdc' : toRD (nextDay (monthEnd cursor)) = toRD (monthEnd cursor) + 1 :=
          toRD_nextDay _ hmev
        by_cases hme1 : toRD (monthEnd cursor) ≤ toRD e1
        · rw [segsLoop_full hce1 hme1, segsLoop_full hce2 (le_trans hme1 he12),
            foldPay_cons, foldPay_cons]
          have hdays : (0 : ℤ) ≤ (Segment.mk SegKind.full cursor (monthEnd cursor)
              ((get_days_in_month_utc cursor : ℕ) : ℤ)
              ((get_days_in_month_utc cursor : ℕ) : ℤ)).days :=
            Int.natCast_nonneg _
          obtain ⟨_, hte', htc'⟩ := payStep_inv hmi hmic hp hdr hte htc hdays
          apply ih m (nextDay (monthEnd cursor)) e1 e2 _
            (nextDay_valid hmev) (nextDay_monthEnd_day cursor) he12 hte' htc'
          · push_cast at hs1 ⊢
            omega
          · push_cast at hs2 ⊢
            omega
        · rw [segsLoop_part hce1 (by omega)]
          have hd30 : (Segment.mk SegKind.part cursor e1
              (diff_days_inclusive cursor e1)
              ((get_days_in_month_utc cursor : ℕ) : ℤ)).days ≤ 30 := by
            show diff_days_inclusive cursor e1 ≤ 30
            unfold diff_days_inclusive diffDays
            unfold get_days_in_month_utc at *
            omega
          by_cases hme2 : toRD (monthEnd cursor) ≤ toRD e2
          · rw [segsLoop_full hce2 hme2, foldPay_cons, foldPay_cons, foldPay_nil]
            have hcomp := @payStep_part_le_full p apy hp ha _ rfl te
              (Segment.mk SegKind.part cursor e1 (diff_days_inclusive cursor e1)
                ((get_days_in_month_utc cursor : ℕ) : ℤ))
              (Segment.mk SegKind.full cursor (monthEnd cursor)
                ((get_days_in_month_utc cursor : ℕ) : ℤ)
                ((get_days_in_month_utc cursor : ℕ) : ℤ))
              rfl rfl hd30
            have hdaysF : (0 : ℤ) ≤ (Segment.mk SegKind.full cursor (monthEnd cursor)
                ((get_days_in_month_utc cursor : ℕ) : ℤ)
                ((get_days_in_month_utc cursor : ℕ) : ℤ)).days :=
              Int.natCast_nonneg _
            obtain ⟨_, hteF, htcF⟩ := payStep_inv hmi hmic hp hdr hte htc hdaysF
            obtain ⟨hg, _, _⟩ := foldPay_loop_grow hp hmi hmic hdr m
              (nextDay (monthEnd cursor)) e2 _ hteF htcF
            exact le_trans hcomp hg
          · rw [segsLoop_part hce2 (by omega), foldPay_cons, foldPay_cons,
              foldPay_nil, foldPay_nil]
            have hdmono : diff_days_inclusive cursor e1 ≤ diff_days_inclusive cursor e2 := by
              unfold diff_days_inclusive diffDays
              omega
            exact payStep_part_mono_days hp hdr
              (show (Segment.mk SegKind.part cursor e1 (diff_days_inclusive cursor e1)
                  ((get_days_in_month_utc cursor : ℕ) : ℤ)).kind = SegKind.part from rfl)
              (show (Segment.mk SegKind.part cursor e2 (diff_days_inclusive cursor e2)
                  ((get_days_in_month_utc cursor : ℕ) : ℤ)).kind = SegKind.part from rfl)
              hdmono
    · rw [segsLoop_stop (by omega), foldPay_nil]
      exact (foldPay_loop_grow hp hmi hmic hdr f2 cursor e2 te hte htc).1

theorem build_eq_empty {s e : Date} (h : toRD e < toRD s) :
    build_accrual_segments s e = [] := by
  unfold build_accrual_segments
  rw [dateLt_iff.mpr h]
  simp

theorem build_eq_day1 {s e : Date} (hse : toRD s ≤ toRD e) (h1 : s.day = 1) :
    build_accrual_segments s e = segsLoop (calcFuel s e) s e := by
  unfold build_accrual_segments
  rw [dateLt_false_iff.mpr hse]
  simp [h1]

theorem build_eq_part1 {s e : Date} (hse : toRD s ≤ toRD e) (h1 : s.day ≠ 1) :
    build_accrual_segments s e =
      Segment.mk SegKind.part s
          (if dateLt (monthEnd s) e = true then monthEnd s else e)
          (diff_days_inclusive s (if dateLt (monthEnd s) e = true then monthEnd s else e))
          ((get_days_in_month_utc s : ℕ) : ℤ)
        :: segsLoop (calcFuel s e)
            (nextDay (if dateLt (monthEnd s) e = true then monthEnd s else e)) e := by
  unfold build_accrual_segments
  rw [dateLt_false_iff.mpr hse]
  simp [h1]

theorem foldComp_build_grow {mr dr : ℚ} (hmr : 0 ≤ mr) (hdr : 0 ≤ dr)
    {s : Date} (hsv : s.Valid) (e : Date) (st : ℚ × ℚ) (hst : StInv st) :
    (st.1 ≤ (foldComp mr dr st (build_accrual_segments s e)).1 ∧
      st.2 ≤ (foldComp mr dr st (build_accrual_segments s e)).2) ∧
      StInv (foldComp mr dr st (build_accrual_segments s e)) := by
  by_cases hse : toRD s ≤ toRD e
  · by_cases h1 : s.day = 1
    · rw [build_eq_day1 hse h1]
      exact foldComp_loop_grow hmr hdr _ s e st hst
    · rw [build_eq_part1 hse h1, foldComp_cons]
      have hme := toRD_monthEnd s
      have hdayle : (s.day : ℤ) ≤ (days_in_month s.year s.month : ℤ) := by
        exact_mod_cast hsv.2.2.2.2
      have hdays : (0 : ℤ) ≤ (Segment.mk SegKind.part s
          (if dateLt (monthEnd s) e = true then monthEnd s else e)
          (diff_days_inclusive s (if dateLt (monthEnd s) e = true then monthEnd s else e))
          ((get_days_in_month_utc s : ℕ) : ℤ)).days := by
        show (0 : ℤ) ≤ diff_days_inclusive s _
        split_ifs with hif
        · have := dateLt_iff.mp hif
          unfold diff_days_inclusive diffDays
          omega
        · exact diff_days_inclusive_nonneg hse
      obtain ⟨hg1, hg2⟩ := compStep_grow hmr hdr hst hdays
      have hst' := compStep_inv hmr hdr hst hdays
      obtain ⟨⟨hh1, hh2⟩, hinv⟩ := foldComp_loop_grow hmr hdr (calcFuel s e) _ e _ hst'
      exact ⟨⟨le_trans hg1 hh1, le_trans hg2 hh2⟩, hinv⟩
  · rw [build_eq_empty (by omega), foldComp_nil]
    exact ⟨⟨le_refl _, le_refl _⟩, hst⟩

theorem foldPay_build_grow {p mi dr : ℚ} (hp : 0 ≤ p) (hmi : 0 ≤ mi)
    (hmic : CentMul mi) (hdr : 0 ≤ dr) {s : Date} (hsv : s.Valid) (e : Date)
    (te : ℚ) (hte : 0 ≤ te) (htc : CentMul te) :
    te ≤ foldPay p mi dr te (build_accrual_segments s e) ∧
      0 ≤ foldPay p mi dr te (build_accrual_segments s e) ∧
      CentMul (foldPay p mi dr te (build_accrual_segments s e)) := by
  by_cases hse : toRD s ≤ toRD e
  · by_cases h1 : s.day = 1
    · rw [build_eq_day1 hse h1]
      exact foldPay_loop_grow hp hmi hmic hdr _ s e te hte htc
    · rw [build_eq_part1 hse h1, foldPay_cons]
      have hme := toRD_monthEnd s
      have hdayle : (s.day : ℤ) ≤ (days_in_month s.year s.month : ℤ) := by
        exact_mod_cast hsv.2.2.2.2
      have hdays : (0 : ℤ) ≤ (Segment.mk SegKind.part s
          (if dateLt (monthEnd s) e = true then monthEnd s else e)
          (diff_days_inclusive s (if dateLt (monthEnd s) e = true then monthEnd s else e))
          ((get_days_in_month_utc s : ℕ) : ℤ)).days := by
        show (0 : ℤ) ≤ diff_days_inclusive s _
        split_ifs with hif
        · have := dateLt_iff.mp hif
          unfold diff_days_inclusive diffDays
          omega
        · exact diff_days_inclusive_nonneg hse
      obtain ⟨hg, hg0, hgc⟩ := payStep_inv hmi hmic hp hdr hte htc hdays
      obtain ⟨hh, hh0, hhc⟩ := foldPay_loop_grow hp hmi hmic hdr (calcFuel s e) _ e _ hg0 hgc
      exact ⟨le_trans hg hh, hh0, hhc⟩
  · rw [build_eq_empty (by omega), foldPay_nil]
    exact ⟨le_refl _, hte, htc⟩

theorem build_eq_part1_lt {s e : Date} (hse : toRD s ≤ toRD e) (h1 : s.day ≠ 1)
    (hlt : toRD (monthEnd s) < toRD e) :
    build_accrual_segments s e =
      Segment.mk SegKind.part s (monthEnd s) (diff_days_inclusive s (monthEnd s))
          ((get_days_in_month_utc s : ℕ) : ℤ)
        :: segsLoop (calcFuel s e) (nextDay (monthEnd s)) e := by
  rw [build_eq_part1 hse h1, dateLt_iff.mpr hlt]
  simp

theorem build_eq_part1_ge {s e : Date} (hse : toRD s ≤ toRD e) (h1 : s.day ≠ 1)
    (hge : toRD e ≤ toRD (monthEnd s)) :
    build_accrual_segments s e =
      Segment.mk SegKind.part s e (diff_days_inclusive s e)
          ((get_days_in_month_utc s : ℕ) : ℤ)
        :: segsLoop (calcFuel s e) (nextDay e) e := by
  rw [build_eq_part1 hse h1, dateLt_false_iff.mpr hge]
  simp

theorem foldComp_build_mono {apy : ℚ} (ha : 0 ≤ apy) {s e1 e2 : Date}
    (hsv : s.Valid) (he1v : e1.Valid) (h12 : toRD e1 ≤ toRD e2)
    (st : ℚ × ℚ) (hst : StInv st) :
    (foldComp (apy / 12) (apy / 365) st (build_accrual_segments s e1)).1 ≤
      (foldComp (apy / 12) (apy / 365) st (build_accrual_segments s e2)).1 ∧
    (foldComp (apy / 12) (apy / 365) st (build_accrual_segments s e1)).2 ≤
      (foldComp (apy / 12) (apy / 365) st (build_accrual_segments s e2)).2 := by
  have hmr : (0 : ℚ) ≤ apy / 12 := by positivity
  have hdr : (0 : ℚ) ≤ apy / 365 := by positivity
  by_cases hse1 : toRD s ≤ toRD e1
  · have hse2 : toRD s ≤ toRD e2 := le_trans hse1 h12
    by_cases h1 : s.day = 1
    · rw [build_eq_day1 hse1 h1, build_eq_day1 hse2 h1]
      apply foldComp_loop_mono ha _ _ s e1 e2 st hsv h1 h12 hst
      · unfold calcFuel
        omega
      · unfold calcFuel
        omega
    · have hme := toRD_monthEnd s
      have hdayle : (s.day : ℤ) ≤ (days_in_month s.year s.month : ℤ) := by
        exact_mod_cast hsv.2.2.2.2
      have hday1 : (1 : ℤ) ≤ (s.day : ℤ) := by
        exact_mod_cast hsv.2.2.2.1
      have hmev : (monthEnd s).Valid := monthEnd_valid hsv
      by_cases hm1 : toRD (monthEnd s) < toRD e1
      · have hm2 : toRD (monthEnd s) < toRD e2 := lt_of_lt_of_le hm1 h12
        rw [build_eq_part1_lt hse1 h1 hm1, build_eq_part1_lt hse2 h1 hm2,
          foldComp_cons, foldComp_cons]
        have hdays : (0 : ℤ) ≤ (Segment.mk SegKind.part s (monthEnd s)
            (diff_days_inclusive s (monthEnd s))
            ((get_days_in_month_utc s : ℕ) : ℤ)).days := by
          show (0 : ℤ) ≤ diff_days_inclusive s (monthEnd s)
          unfold diff_days_inclusive diffDays
          omega
        have hrd' : toRD (nextDay (monthEnd s)) = toRD (monthEnd s) + 1 :=
          toRD_nextDay _ hmev
        apply foldComp_loop_mono ha _ _ (nextDay (monthEnd s)) e1 e2 _
          (nextDay_valid hmev) (nextDay_monthEnd_day s) h12
          (compStep_inv hmr hdr hst hdays)
        · unfold calcFuel
          omega
        · unfold calcFuel
          omega
      · have he1me : toRD e1 ≤ toRD (monthEnd s) := by omega
        have hnd1 : toRD (nextDay e1) = toRD e1 + 1 := toRD_nextDay e1 he1v
        rw [build_eq_part1_ge hse1 h1 he1me, foldComp_cons,
          @segsLoop_stop (calcFuel s e1) (nextDay e1) e1 (by omega), foldComp_nil]
        by_cases hm2 : toRD (monthEnd s) < toRD e2
        · rw [build_eq_part1_lt hse2 h1 hm2, foldComp_cons]
          have hdays2 : (0 : ℤ) ≤ (Segment.mk SegKind.part s (monthEnd s)
              (diff_days_inclusive s (monthEnd s))
              ((get_days_in_month_utc s : ℕ) : ℤ)).days := by
            show (0 : ℤ) ≤ diff_days_inclusive s (monthEnd s)
            unfold diff_days_inclusive diffDays
            omega
          have hstep := @compStep_part_mono_days (apy / 12) (apy / 365) hdr st hst.1
            (Segment.mk SegKind.part s e1 (diff_days_inclusive s e1)
              ((get_days_in_month_utc s : ℕ) : ℤ))
            (Segment.mk SegKind.part s (monthEnd s)
              (diff_days_inclusive s (monthEnd s))
              ((get_days_in_month_utc s : ℕ) : ℤ))
            rfl rfl
            (by
              show diff_days_inclusive s e1 ≤ diff_days_inclusive s (monthEnd s)
              unfold diff_days_inclusive diffDays
              omega)
          obtain ⟨⟨hg1, hg2⟩, _⟩ := foldComp_loop_grow hmr hdr (calcFuel s e2)
            (nextDay (monthEnd s)) e2 _ (compStep_inv hmr hdr hst hdays2)
          exact ⟨le_trans hstep.1 hg1, le_trans hstep.2 hg2⟩
        · have he2me : toRD e2 ≤ toRD (monthEnd s) := by omega
          rw [build_eq_part1_ge hse2 h1 he2me, foldComp_cons]
          have hdays2 : (0 : ℤ) ≤ (Segment.mk SegKind.part s e2
              (diff_days_inclusive s e2)
              ((get_days_in_month_utc s : ℕ) : ℤ)).days :=
            diff_days_inclusive_nonneg hse2
          have hstep := @compStep_part_mono_days (apy / 12) (apy / 365) hdr st hst.1
            (Segment.mk SegKind.part s e1 (diff_days_inclusive s e1)
              ((get_days_in_month_utc s : ℕ) : ℤ))
            (Segment.mk SegKind.part s e2 (diff_days_inclusive s e2)
              ((get_days_in_month_utc s : ℕ) : ℤ))
            rfl rfl
            (by
              show diff_days_inclusive s e1 ≤ diff_days_inclusive s e2
              unfold diff_days_inclusive diffDays
              omega)
          obtain ⟨⟨hg1, hg2⟩, _⟩ := foldComp_loop_grow hmr hdr (calcFuel s e2)
            (nextDay e2) e2 _ (compStep_inv hmr hdr hst hdays2)
          exact ⟨le_trans hstep.1 hg1, le_trans hstep.2 hg2⟩
  · rw [build_eq_empty (by omega), foldComp_nil]
    exact (foldComp_build_grow hmr hdr hsv e2 st hst).1

theorem foldPay_build_mono {p apy : ℚ} (hp : 0 ≤ p) (ha : 0 ≤ apy) {s e1 e2 : Date}
    (hsv : s.Valid) (he1v : e1.Valid) (h12 : toRD e1 ≤ toRD e2)
    (te : ℚ) (hte : 0 ≤ te) (htc : CentMul te) :
    foldPay p (round2 (p * (apy / 12))) (apy / 365) te (build_accrual_segments s e1) ≤
      foldPay p (round2 (p * (apy / 12))) (apy / 365) te (build_accrual_segments s e2) := by
  have hdr : (0 : ℚ) ≤ apy / 365 := by positivity
  have hmi : (0 : ℚ) ≤ round2 (p * (apy / 12)) := round2_nonneg (by positivity)
  have hmic : CentMul (round2 (p * (apy / 12))) := round2_centMul _
  by_cases hse1 : toRD s ≤ toRD e1
  · have hse2 : toRD s ≤ toRD e2 := le_trans hse1 h12
    by_cases h1 : s.day = 1
    · rw [build_eq_day1 hse1 h1, build_eq_day1 hse2 h1]
      apply foldPay_loop_mono hp ha _ _ s e1 e2 te hsv h1 h12 hte htc
      · unfold calcFuel
        omega
      · unfold calcFuel
        omega
    · have hme := toRD_monthEnd s
      have hdayle : (s.day : ℤ) ≤ (days_in_month s.year s.month : ℤ) := by
        exact_mod_cast hsv.2.2.2.2
      have hday1 : (1 : ℤ) ≤ (s.day : ℤ) := by
        exact_mod_cast hsv.2.2.2.1
      have hmev : (monthEnd s).Valid := monthEnd_valid hsv
      by_cases hm1 : toRD (monthEnd s) < toRD e1
      · have hm2 : toRD (monthEnd s) < toRD e2 := lt_of_lt_of_le hm1 h12
        rw [build_eq_part1_lt hse1 h1 hm1, build_eq_part1_lt hse2 h1 hm2,
          foldPay_cons, foldPay_cons]
        have hdays : (0 : ℤ) ≤ (Segment.mk SegKind.part s (monthEnd s)
            (diff_days_inclusive s (monthEnd s))
            ((get_days_in_month_utc s : ℕ) : ℤ)).days := by
          show (0 : ℤ) ≤ diff_days_inclusive s (monthEnd s)
          unfold diff_days_inclusive diffDays
          omega
        have hrd' : toRD (nextDay (monthEnd s)) = toRD (monthEnd s) + 1 :=
          toRD_nextDay _ hmev
        obtain ⟨_, hte', htc'⟩ := payStep_inv hmi hmic hp hdr hte htc hdays
        apply foldPay_loop_mono hp ha _ _ (nextDay (monthEnd s)) e1 e2 _
          (nextDay_valid hmev) (nextDay_monthEnd_day s) h12 hte' htc'
        · unfold calcFuel
          omega
        · unfold calcFuel
          omega
      · have he1me : toRD e1 ≤ toRD (monthEnd s) := by omega
        have hnd1 : toRD (nextDay e1) = toRD e1 + 1 := toRD_nextDay e1 he1v
        rw [build_eq_part1_ge hse1 h1 he1me, foldPay_cons,
          @segsLoop_stop (calcFuel s e1) (nextDay e1) e1 (by omega), foldPay_nil]
        by_cases hm2 : toRD (monthEnd s) < toRD e2
        · rw [build_eq_part1_lt hse2 h1 hm2, foldPay_cons]
          have hdays2 : (0 : ℤ) ≤ (Segment.mk SegKind.part s (monthEnd s)
              (diff_days_inclusive s (monthEnd s))
              ((get_days_in_month_utc s : ℕ) : ℤ)).days := by
            show (0 : ℤ) ≤ diff_days_inclusive s (monthEnd s)
            unfold diff_days_inclusive diffDays
            omega
          have hstep := @payStep_part_mono_days p (round2 (p * (apy / 12))) (apy / 365)
            hp hdr te
            (Segment.mk SegKind.part s e1 (diff_days_inclusive s e1)
              ((get_days_in_month_utc s : ℕ) : ℤ))
            (Segment.mk SegKind.part s (monthEnd s)
              (diff_days_inclusive s (monthEnd s))
              ((get_days_in_month_utc s : ℕ) : ℤ))
            rfl rfl
            (by
              show diff_days_inclusive s e1 ≤ diff_days_inclusive s (monthEnd s)
              unfold diff_days_inclusive diffDays
              omega)
          obtain ⟨_, hte2, htc2⟩ := payStep_inv hmi hmic hp hdr hte htc hdays2
          obtain ⟨hg, _, _⟩ := foldPay_loop_grow hp hmi hmic hdr (calcFuel s e2)
            (nextDay (monthEnd s)) e2 _ hte2 htc2
          exact le_trans hstep hg
        · have he2me : toRD e2 ≤ toRD (monthEnd s) := by omega
          rw [build_eq_part1_ge hse2 h1 he2me, foldPay_cons]
          have hdays2 : (0 : ℤ) ≤ (Segment.mk SegKind.part s e2
              (diff_days_inclusive s e2)
              ((get_days_in_month_utc s : ℕ) : ℤ)).days :=
            diff_days_inclusive_nonneg hse2
          have hstep := @payStep_part_mono_days p (round2 (p * (apy / 12))) (apy / 365)
            hp hdr te
            (Segment.mk SegKind.part s e1 (diff_days_inclusive s e1)
              ((get_days_in_month_utc s : ℕ) : ℤ))
            (Segment.mk SegKind.part s e2 (diff_days_inclusive s e2)
              ((get_days_in_month_utc s : ℕ) : ℤ))
            rfl rfl
            (by
              show diff_days_inclusive s e1 ≤ diff_days_inclusive s e2
              unfold diff_days_inclusive diffDays
              omega)
          obtain ⟨_, hte2, htc2⟩ := payStep_inv hmi hmic hp hdr hte htc hdays2
          obtain ⟨hg, _, _⟩ := foldPay_loop_grow hp hmi hmic hdr (calcFuel s e2)
            (nextDay e2) e2 _ hte2 htc2
          exact le_trans hstep hg
  · rw [build_eq_empty (by omega), foldPay_nil]
    exact (foldPay_build_grow hp hmi hmic hdr hsv e2 te hte htc).1

theorem flcmeAux_halt {fuel : ℕ} {cursor d : Date} {acc : Option Date}
    (h : toRD d < toRD cursor) :
    flcmeAux fuel cursor d acc = acc := by
  cases fuel with
  | zero => rfl
  | succ n =>
    rw [flcmeAux.eq_def]
    dsimp only
    rw [dateLe_false_iff.mpr h]
    simp

theorem flcmeAux_step {fuel : ℕ} {cursor d : Date} {acc : Option Date}
    (hc : toRD cursor ≤ toRD d) (hm : toRD (monthEnd cursor) < toRD d) :
    flcmeAux (fuel + 1) cursor d acc =
      flcmeAux fuel (nextDay (monthEnd cursor)) d (some (monthEnd cursor)) := by
  rw [flcmeAux.eq_def]
  dsimp only
  rw [dateLe_iff.mpr hc, dateLt_iff.mpr hm]
  simp

theorem flcmeAux_hold {fuel : ℕ} {cursor d : Date} {acc : Option Date}
    (hc : toRD cursor ≤ toRD d) (hm : toRD d ≤ toRD (monthEnd cursor)) :
    flcmeAux (fuel + 1) cursor d acc = acc := by
  rw [flcmeAux.eq_def]
  dsimp only
  rw [dateLe_iff.mpr hc, dateLt_false_iff.mpr hm]
  simp

theorem flcmeAux_improve (w : Date) :
    ∀ (fuel : ℕ) (cursor d : Date) (acc : Option Date),
      cursor.Valid → toRD (acc.getD w) < toRD cursor →
      toRD (acc.getD w) ≤ toRD ((flcmeAux fuel cursor d acc).getD w) := by
  intro fuel
  induction fuel with
  | zero =>
    intro cursor d acc hv hlt
    exact le_refl _
  | succ n ih =>
    intro cursor d acc hv hlt
    by_cases hc : toRD cursor ≤ toRD d
    · by_cases hm : toRD (monthEnd cursor) < toRD d
      · rw [flcmeAux_step hc hm]
        have hdayle : (cursor.day : ℤ) ≤ (days_in_month cursor.year cursor.month : ℤ) := by
          exact_mod_cast hv.2.2.2.2
        have hcme := toRD_monthEnd cursor
        have hnext : toRD (nextDay (monthEnd cursor)) = toRD (monthEnd cursor) + 1 :=
          toRD_nextDay _ (monthEnd_valid hv)
        have hrec := ih (nextDay (monthEnd cursor)) d (some (monthEnd cursor))
          (nextDay_valid (monthEnd_valid hv))
          (by rw [Option.getD_some]; omega)
        rw [Option.getD_some] at hrec
        omega
      · rw [flcmeAux_hold hc (by omega)]
    · rw [flcmeAux_halt (by omega)]

theorem flcmeAux_valid {w : Date} (_hw : w.Valid) :
    ∀ (fuel : ℕ) (cursor d : Date) (acc : Option Date),
      cursor.Valid → (acc.getD w).Valid →
      ((flcmeAux fuel cursor d acc).getD w).Valid := by
  intro fuel
  induction fuel with
  | zero =>
    intro cursor d acc hv hav
    exact hav
  | succ n ih =>
    intro cursor d acc hv hav
    by_cases hc : toRD cursor ≤ toRD d
    · by_cases hm : toRD (monthEnd cursor) < toRD d
      · rw [flcmeAux_step hc hm]
        exact ih (nextDay (monthEnd cursor)) d (some (monthEnd cursor))
          (nextDay_valid (monthEnd_valid hv))
          (by rw [Option.getD_some]; exact monthEnd_valid hv)
      · rw [flcmeAux_hold hc (by omega)]
        exact hav
    · rw [flcmeAux_halt (by omega)]
      exact hav

theorem flcmeAux_mono (w : Date) :
    ∀ (f1 f2 : ℕ) (cursor d1 d2 : Date) (acc : Option Date),
      cursor.Valid → toRD d1 ≤ toRD d2 → toRD (acc.getD w) < toRD cursor →
      toRD d1 - toRD cursor < (f1 : ℤ) → toRD d2 - toRD cursor < (f2 : ℤ) →
      toRD ((flcmeAux f1 cursor d1 acc).getD w) ≤
        toRD ((flcmeAux f2 cursor d2 acc).getD w) := by
  intro f1
  induction f1 with
  | zero =>
    intro f2 cursor d1 d2 acc hv h12 hacc hs1 hs2
    exact flcmeAux_improve w f2 cursor d2 acc hv hacc
  | succ n ih =>
    intro f2 cursor d1 d2 acc hv h12 hacc hs1 hs2
    by_cases hc1 : toRD cursor ≤ toRD d1
    · have hc2 : toRD cursor ≤ toRD d2 := le_trans hc1 h12
      cases f2 with
      | zero => exfalso; push_cast at hs2; omega
      | succ m =>
        have hdayle : (cursor.day : ℤ) ≤ (days_in_month cursor.year cursor.month : ℤ) := by
          exact_mod_cast hv.2.2.2.2
        have hcme := toRD_monthEnd cursor
        have hnext : toRD (nextDay (monthEnd cursor)) = toRD (monthEnd cursor) + 1 :=
          toRD_nextDay _ (monthEnd_valid hv)
        by_cases hme1 : toRD (monthEnd cursor) < toRD d1
        · rw [flcmeAux_step hc1 hme1, flcmeAux_step hc2 (lt_of_lt_of_le hme1 h12)]
          apply ih m (nextDay (monthEnd cursor)) d1 d2 (some (monthEnd cursor))
            (nextDay_valid (monthEnd_valid hv)) h12
            (by rw [Option.getD_some]; omega)
          · push_cast at hs1 ⊢
            omega
          · push_cast at hs2 ⊢
            omega
        · rw [flcmeAux_hold hc1 (by omega)]
          exact flcmeAux_improve w (m + 1) cursor d2 acc hv hacc
    · rw [flcmeAux_halt (by omega)]
      exact flcmeAux_improve w f2 cursor d2 acc hv hacc

theorem find_last_eq_getD (s d : Date) :
    find_last_completed_month_end s d =
      (flcmeAux (calcFuel s d) s d none).getD (prevDay s) := by
  unfold find_last_completed_month_end
  cases h : flcmeAux (calcFuel s d) s d none <;> simp

theorem find_last_mono {s d1 d2 : Date} (hsv : s.Valid)
    (hps : toRD (prevDay s) < toRD s) (h12 : toRD d1 ≤ toRD d2) :
    toRD (find_last_completed_month_end s d1) ≤
      toRD (find_last_completed_month_end s d2) := by
  rw [find_last_eq_getD, find_last_eq_getD]
  apply flcmeAux_mono (prevDay s) _ _ s d1 d2 none hsv h12
  · simpa using hps
  · unfold calcFuel
    omega
  · unfold calcFuel
    omega

theorem find_last_valid {s d : Date} (hsv : s.Valid) (hpv : (prevDay s).Valid) :
    (find_last_completed_month_end s d).Valid := by
  rw [find_last_eq_getD]
  exact flcmeAux_valid hpv (calcFuel s d) s d none hsv (by simpa using hpv)

theorem find_last_none {s d : Date} (hc : toRD s ≤ toRD d)
    (hm : toRD d ≤ toRD (monthEnd s)) :
    find_last_completed_month_end s d = prevDay s := by
  rw [find_last_eq_getD]
  rw [show calcFuel s d = (toRD d + 1 - toRD s).toNat + 1 from rfl]
  rw [flcmeAux_hold hc hm]
  simp

theorem sumDays_foldl :
    ∀ (l : List Segment) (acc : ℤ),
      List.foldl (fun a s => a + s.days) acc l = acc + sumDays l := by
  intro l
  induction l with
  | nil =>
    intro acc
    simp [sumDays]
  | cons a t ih =>
    intro acc
    have h2 : sumDays (a :: t) = 0 + a.days + sumDays t := by
      show List.foldl _ 0 (a :: t) = _
      rw [List.foldl_cons, ih (0 + a.days)]
    rw [List.foldl_cons, ih (acc + a.days), h2]
    ring

theorem sumDays_cons (a : Segment) (l : List Segment) :
    sumDays (a :: l) = a.days + sumDays l := by
  show List.foldl _ 0 (a :: l) = _
  rw [List.foldl_cons, sumDays_foldl]
  ring

theorem sumDays_nil : sumDays [] = 0 := rfl

theorem sumDays_loop :
    ∀ (fuel : ℕ) (cursor e : Date), cursor.Valid → cursor.day = 1 →
      toRD e - toRD cursor < (fuel : ℤ) →
      sumDays (segsLoop fuel cursor e) = max 0 (toRD e - toRD cursor + 1) := by
  intro fuel
  induction fuel with
  | zero =>
    intro cursor e hv h1 hs
    rw [segsLoop_zero, sumDays_nil]
    push_cast at hs
    omega
  | succ n ih =>
    intro cursor e hv h1 hs
    by_cases hc : toRD cursor ≤ toRD e
    · have hcme := toRD_monthEnd cursor
      rw [h1] at hcme
      have h28 := days_in_month_ge_28 cursor.year cursor.month
      have h31 := days_in_month_le_31 cursor.year cursor.month
      by_cases hm : toRD (monthEnd cursor) ≤ toRD e
      · rw [segsLoop_full hc hm, sumDays_cons]
        have hnext : toRD (nextDay (monthEnd cursor)) = toRD (monthEnd cursor) + 1 :=
          toRD_nextDay _ (monthEnd_valid hv)
        rw [ih (nextDay (monthEnd cursor)) e (nextDay_valid (monthEnd_valid hv))
          (nextDay_monthEnd_day cursor) (by push_cast at hs ⊢; omega)]
        dsimp only
        unfold get_days_in_month_utc
        omega
      · rw [segsLoop_part hc (by omega), sumDays_cons, sumDays_nil]
        dsimp only
        unfold diff_days_inclusive diffDays
        omega
    · rw [segsLoop_stop (by omega), sumDays_nil]
      omega

theorem sumDays_build {s e : Date} (hsv : s.Valid) (hev : e.Valid)
    (hse : toRD s ≤ toRD e) :
    sumDays (build_accrual_segments s e) = toRD e - toRD s + 1 := by
  by_cases h1 : s.day = 1
  · rw [build_eq_day1 hse h1,
      sumDays_loop (calcFuel s e) s e hsv h1 (by unfold calcFuel; omega)]
    omega
  · have hme := toRD_monthEnd s
    have hdayle : (s.day : ℤ) ≤ (days_in_month s.year s.month : ℤ) := by
      exact_mod_cast hsv.2.2.2.2
    have hday1 : (1 : ℤ) ≤ (s.day : ℤ) := by
      exact_mod_cast hsv.2.2.2.1
    by_cases hm : toRD (monthEnd s) < toRD e
    · rw [build_eq_part1_lt hse h1 hm, sumDays_cons]
      have hnext : toRD (nextDay (monthEnd s)) = toRD (monthEnd s) + 1 :=
        toRD_nextDay _ (monthEnd_valid hsv)
      rw [sumDays_loop (calcFuel s e) (nextDay (monthEnd s)) e
        (nextDay_valid (monthEnd_valid hsv)) (nextDay_monthEnd_day s)
        (by unfold calcFuel; omega)]
      dsimp only
      unfold diff_days_inclusive diffDays
      omega
    · rw [build_eq_part1_ge hse h1 (by omega), sumDays_cons]
      have hnext : toRD (nextDay e) = toRD e + 1 := toRD_nextDay e hev
      rw [@segsLoop_stop (calcFuel s e) (nextDay e) e (by omega), sumDays_nil]
      dsimp only
      unfold diff_days_inclusive diffDays
      omega

theorem RATES_get_nonneg (lp : Option String) : 0 ≤ RATES_get lp := by
  unfold RATES_get
  cases lp with
  | none => norm_num
  | some s => dsimp only; split_ifs <;> norm_num

/-- Unfolding of `calculate_investment_value` on the not-yet-accruing branch
(evaluation date strictly before `confirmedAt + 1 day`). -/
theorem civ_early {now : Date} {inv : Investment} {c d : Date} {b : Bool}
    (hacc : accruingStatus inv.status = true)
    (hcts : getField inv.confirmedAt inv.confirmed_at = some (TS.iso c))
    (hlock : getField inv.lockupEndDate inv.lockup_end_date ≠ some TS.malformed)
    (hd : toRD d < toRD (nextDay c)) :
    calculate_investment_value now (some inv) (some (TS.iso d)) b =
      Except.ok ⟨inv.amount, 0, 0, false, some (resolvedLockupEnd inv c),
        if getField inv.paymentFrequency inv.payment_frequency = some "monthly"
        then round2 (inv.amount *
          (RATES_get (getField inv.lockupPeriod inv.lockup_period) / 12))
        else 0⟩ := by
  rcases hl : getField inv.lockupEndDate inv.lockup_end_date with _ | ts
  · simp [calculate_investment_value, hacc, hcts, hl, resolvedLockupEnd,
      to_utc_start_of_day, dateLt_iff.mpr hd]
  · cases ts with
    | malformed => exact absurd hl hlock
    | iso l =>
      simp [calculate_investment_value, hacc, hcts, hl, resolvedLockupEnd,
        to_utc_start_of_day, dateLt_iff.mpr hd]

/-- Unfolding of `calculate_investment_value` on the accruing branch
(evaluation date on/after `confirmedAt + 1 day`). -/
theorem civ_main {now : Date} {inv : Investment} {c d : Date} {b : Bool}
    (hacc : accruingStatus inv.status = true)
    (hcts : getField inv.confirmedAt inv.confirmed_at = some (TS.iso c))
    (hlock : getField inv.lockupEndDate inv.lockup_end_date ≠ some TS.malformed)
    (hd : toRD (nextDay c) ≤ toRD d) :
    calculate_investment_value now (some inv) (some (TS.iso d)) b =
      Except.ok
        ⟨round2 (if getField inv.paymentFrequency inv.payment_frequency = some "compounding"
            then calculate_compounding inv.amount
              (build_accrual_segments (nextDay c)
                (if b then d else find_last_completed_month_end (nextDay c) d))
              (RATES_get (getField inv.lockupPeriod inv.lockup_period) / 12)
              (RATES_get (getField inv.lockupPeriod inv.lockup_period))
            else calculate_monthly_payout inv.amount
              (build_accrual_segments (nextDay c)
                (if b then d else find_last_completed_month_end (nextDay c) d))
              (RATES_get (getField inv.lockupPeriod inv.lockup_period) / 12)
              (RATES_get (getField inv.lockupPeriod inv.lockup_period))).1,
         round2 (if getField inv.paymentFrequency inv.payment_frequency = some "compounding"
            then calculate_compounding inv.amount
              (build_accrual_segments (nextDay c)
                (if b then d else find_last_completed_month_end (nextDay c) d))
              (RATES_get (getField inv.lockupPeriod inv.lockup_period) / 12)
              (RATES_get (getField inv.lockupPeriod inv.lockup_period))
            else calculate_monthly_payout inv.amount
              (build_accrual_segments (nextDay c)
                (if b then d else find_last_completed_month_end (nextDay c) d))
              (RATES_get (getField inv.lockupPeriod inv.lockup_period) / 12)
              (RATES_get (getField inv.lockupPeriod inv.lockup_period))).2,
         calculate_months_elapsed (build_accrual_segments (nextDay c)
           (if b then d else find_last_completed_month_end (nextDay c) d)),
         dateLe (resolvedLockupEnd inv c) d,
         some (resolvedLockupEnd inv c),
         if getField inv.paymentFrequency inv.payment_frequency = some "monthly"
         then round2 (inv.amount *
           (RATES_get (getField inv.lockupPeriod inv.lockup_period) / 12))
         else 0⟩ := by
  rcases hl : getField inv.lockupEndDate inv.lockup_end_date with _ | ts
  · simp [calculate_investment_value, hacc, hcts, hl, resolvedLockupEnd,
      to_utc_start_of_day, dateLt_false_iff.mpr hd]
  · cases ts with
    | malformed => exact absurd hl hlock
    | iso l =>
      simp [calculate_investment_value, hacc, hcts, hl, resolvedLockupEnd,
        to_utc_start_of_day, dateLt_false_iff.mpr hd]

theorem foldComp_keeps_diff (mr dr : ℚ) :
    ∀ (l : List Segment) (st : ℚ × ℚ), CentMul st.1 → CentMul st.2 →
      ((foldComp mr dr st l).1 - (foldComp mr dr st l).2 = st.1 - st.2) ∧
        CentMul (foldComp mr dr st l).1 ∧ CentMul (foldComp mr dr st l).2 := by
  intro l
  induction l with
  | nil =>
    intro st h1 h2
    exact ⟨rfl, h1, h2⟩
  | cons a t ih =>
    intro st h1 h2
    rw [foldComp_cons]
    have hstep : ((compStep mr dr st a).1 - (compStep mr dr st a).2 = st.1 - st.2) ∧
        CentMul (compStep mr dr st a).1 ∧ CentMul (compStep mr dr st a).2 := by
      unfold compStep
      cases hk : a.kind <;> dsimp only
      · rw [round2_eq_self (h1.add (round2_centMul (st.1 * mr))),
          round2_eq_self (h2.add (round2_centMul (st.1 * mr)))]
        exact ⟨by ring, h1.add (round2_centMul _), h2.add (round2_centMul _)⟩
      · rw [round2_eq_self (h1.add (round2_centMul (st.1 * dr * (a.days : ℚ)))),
          round2_eq_self (h2.add (round2_centMul (st.1 * dr * (a.days : ℚ))))]
        exact ⟨by ring, h1.add (round2_centMul _), h2.add (round2_centMul _)⟩
    obtain ⟨hd, hc1, hc2⟩ := hstep
    obtain ⟨hd', hc1', hc2'⟩ := ih _ hc1 hc2
    exact ⟨hd'.trans hd, hc1', hc2'⟩

/-- C8: with a whole-cent principal, the compounding valuation maintains
`currentValue = principal + totalEarnings` over any segment sequence, and the
monthly-payout valuation returns the principal unchanged as its first
component. -/
theorem c8_value_invariants :
    (∀ (p : ℚ), CentMul p → ∀ (segs : List Segment) (mr apy : ℚ),
        (calculate_compounding p segs mr apy).1 =
          p + (calculate_compounding p segs mr apy).2) ∧
    (∀ (p : ℚ) (segs : List Segment) (mr apy : ℚ),
        (calculate_monthly_payout p segs mr apy).1 = p) := by
  constructor
  · intro p hp segs mr apy
    have h := (foldComp_keeps_diff mr (apy / 365) segs (p, 0) hp centMul_zero).1
    have he : calculate_compounding p segs mr apy = foldComp mr (apy / 365) (p, 0) segs := rfl
    rw [he]
    dsimp only at h
    linarith
  · intro p segs mr apy
    rfl

/-- C8 witness: the invariants evaluated at a concrete principal and segment
list. -/
theorem c8_witness :
    (calculate_compounding 100 [⟨SegKind.full, ⟨2024,1,1⟩, ⟨2024,1,31⟩, 31, 31⟩]
        (1/150) (8/100)).1 =
      100 + (calculate_compounding 100 [⟨SegKind.full, ⟨2024,1,1⟩, ⟨2024,1,31⟩, 31, 31⟩]
        (1/150) (8/100)).2 ∧
    (calculate_monthly_payout 100 [⟨SegKind.full, ⟨2024,1,1⟩, ⟨2024,1,31⟩, 31, 31⟩]
        (1/150) (8/100)).1 = 100 :=
  ⟨c8_value_invariants.1 100 ⟨10000, by norm_num⟩ _ _ _,
   c8_value_invariants.2 100 _ _ _⟩

/-- C6: for `start ≤ end` the segment day-counts of `build_accrual_segments`
sum to `(end - start).days + 1`, and for `end < start` the segment list is
empty. -/
theorem c6_segmentation_completeness (s e : Date) (hsv : s.Valid) (hev : e.Valid) :
    (toRD s ≤ toRD e →
      sumDays (build_accrual_segments s e) = diff_days_inclusive s e) ∧
    (toRD e < toRD s → build_accrual_segments s e = []) := by
  constructor
  · intro h
    rw [sumDays_build hsv hev h]
    unfold diff_days_inclusive diffDays
    ring
  · intro h
    exact build_eq_empty h

/-- C6 witness: applied at a concrete window. -/
theorem c6_witness :
    (toRD ⟨2024,1,15⟩ ≤ toRD ⟨2024,3,10⟩ →
      sumDays (build_accrual_segments ⟨2024,1,15⟩ ⟨2024,3,10⟩) =
        diff_days_inclusive ⟨2024,1,15⟩ ⟨2024,3,10⟩) ∧
    (toRD ⟨2024,3,10⟩ < toRD ⟨2024,1,15⟩ →
      build_accrual_segments ⟨2024,1,15⟩ ⟨2024,3,10⟩ = []) :=
  c6_segmentation_completeness ⟨2024,1,15⟩ ⟨2024,3,10⟩ (by decide) (by decide)

/-- C10: supplying the same non-empty field values under camelCase keys or
under snake_case keys yields identical results. -/
theorem c10_key_aliasing (now : Date) (amt : ℚ) (st : Option String)
    (cts lets : TS) (lps pfs : String) (asOf : Option TS) (b : Bool) :
    calculate_investment_value now
      (some ⟨amt, st, some cts, none, some lets, none, some lps, none, some pfs, none⟩)
      asOf b =
    calculate_investment_value now
      (some ⟨amt, st, none, some cts, none, some lets, none, some lps, none, some pfs⟩)
      asOf b := by
  rfl

/-- C1: evaluating the spec's first concrete scenario ($10,000, 1-year,
compounding, confirmed 2024-01-01, evaluated 2024-04-01, conservative mode)
on the code.  Because accrual starts the day AFTER confirmation, January is a
30-of-31-day partial month: the code returns `months_elapsed = 92/31 ≈ 2.97`
and `total_earnings = 200.40`, not the `3.0` months and `201.34` earnings
that the spec scenario (and the repository's own test) assert. -/
theorem c1_scenario1_code_divergence :
    calculate_investment_value ⟨2024,4,1⟩
      (some ⟨10000, some "active", some (TS.iso ⟨2024,1,1⟩), none, none, none,
        some "1-year", none, some "compounding", none⟩)
      (some (TS.iso ⟨2024,4,1⟩)) false =
      Except.ok ⟨51002/5, 1002/5, 92/31, false, some ⟨2025,1,1⟩, 0⟩ ∧
    ((92 : ℚ)/31 ≠ 3 ∧ (1002 : ℚ)/5 ≠ 20134/100 ∧ (51002 : ℚ)/5 ≠ 1020134/100) := by
  constructor
  · have h1 : find_last_completed_month_end (nextDay ⟨2024,1,1⟩) ⟨2024,4,1⟩ = ⟨2024,3,31⟩ := by
      decide
    have h2 : build_accrual_segments (nextDay ⟨2024,1,1⟩) ⟨2024,3,31⟩ =
        [⟨SegKind.part, ⟨2024,1,2⟩, ⟨2024,1,31⟩, 30, 31⟩,
         ⟨SegKind.full, ⟨2024,2,1⟩, ⟨2024,2,29⟩, 29, 29⟩,
         ⟨SegKind.full, ⟨2024,3,1⟩, ⟨2024,3,31⟩, 31, 31⟩] := by decide
    have h3 : resolvedLockupEnd
        ⟨10000, some "active", some (TS.iso ⟨2024,1,1⟩), none, none, none,
          some "1-year", none, some "compounding", none⟩ ⟨2024,1,1⟩ = ⟨2025,1,1⟩ := by decide
    have h4 : dateLe (⟨2025,1,1⟩ : Date) ⟨2024,4,1⟩ = false := by decide
    rw [@civ_main ⟨2024,4,1⟩
      ⟨10000, some "active", some (TS.iso ⟨2024,1,1⟩), none, none, none,
        some "1-year", none, some "compounding", none⟩
      ⟨2024,1,1⟩ ⟨2024,4,1⟩ false (by decide) (by decide) (by decide) (by decide)]
    simp only [Bool.false_eq_true, if_false, h1, h2, h3, h4, getField]
    norm_num [calculate_compounding, compStep, List.foldl, calculate_months_elapsed,
      RATES_get, round2, rhe, ratFloor_eq]
    decide
  · norm_num

/-- C4: an unrecognized `lockupPeriod` does not fail loudly — the code
silently defaults to the 1-year 8% rate: the result for lockup period
`"7-year"` is returned successfully and equals the result computed with
`"1-year"` on the identical snapshot. -/
theorem c4_silent_rate_default :
    calculate_investment_value ⟨2024,4,1⟩
      (some ⟨10000, some "active", some (TS.iso ⟨2024,1,1⟩), none, none, none,
        some "7-year", none, some "compounding", none⟩)
      (some (TS.iso ⟨2024,4,1⟩)) false =
    calculate_investment_value ⟨2024,4,1⟩
      (some ⟨10000, some "active", some (TS.iso ⟨2024,1,1⟩), none, none, none,
        some "1-year", none, some "compounding", none⟩)
      (some (TS.iso ⟨2024,4,1⟩)) false ∧
    (∃ r, calculate_investment_value ⟨2024,4,1⟩
      (some ⟨10000, some "active", some (TS.iso ⟨2024,1,1⟩), none, none, none,
        some "7-year", none, some "compounding", none⟩)
      (some (TS.iso ⟨2024,4,1⟩)) false = Except.ok r) := by
  constructor
  · rfl
  · exact ⟨_, rfl⟩

/-- C2 counterexample: with evaluation date EQUAL to the accrual-start date
(2024-01-02 for a 2024-01-01 confirmation) and `include_partial_month = true`,
the code credits one day of interest: `total_earnings = 2.19 ≠ 0`, refuting
the claim's `≤` at the boundary. -/
theorem c2_counterexample :
    calculate_investment_value ⟨2024,1,2⟩
      (some ⟨10000, some "active", some (TS.iso ⟨2024,1,1⟩), none, none, none,
        some "1-year", none, some "compounding", none⟩)
      (some (TS.iso ⟨2024,1,2⟩)) true =
      Except.ok ⟨1000219/100, 219/100, 1/31, false, some ⟨2025,1,1⟩, 0⟩ ∧
    ((219 : ℚ)/100 ≠ 0 ∧ toRD ⟨2024,1,2⟩ ≤ toRD (nextDay ⟨2024,1,1⟩)) := by
  constructor
  · have h2 : build_accrual_segments (nextDay ⟨2024,1,1⟩) ⟨2024,1,2⟩ =
        [⟨SegKind.part, ⟨2024,1,2⟩, ⟨2024,1,2⟩, 1, 31⟩] := by decide
    have h3 : resolvedLockupEnd
        ⟨10000, some "active", some (TS.iso ⟨2024,1,1⟩), none, none, none,
          some "1-year", none, some "compounding", none⟩ ⟨2024,1,1⟩ = ⟨2025,1,1⟩ := by decide
    have h4 : dateLe (⟨2025,1,1⟩ : Date) ⟨2024,1,2⟩ = false := by decide
    rw [@civ_main ⟨2024,1,2⟩
      ⟨10000, some "active", some (TS.iso ⟨2024,1,1⟩), none, none, none,
        some "1-year", none, some "compounding", none⟩
      ⟨2024,1,1⟩ ⟨2024,1,2⟩ true (by decide) (by decide) (by decide) (by decide)]
    simp only [reduceIte, h2, h3, h4, getField]
    norm_num [calculate_compounding, compStep, List.foldl, calculate_months_elapsed,
      RATES_get, round2, rhe, ratFloor_eq]
    decide
  · exact ⟨by norm_num, by decide⟩

/-- C2 (amended): total earnings are zero whenever the evaluation date is
strictly before the accrual-start date (in both modes), and also at an
evaluation date equal to the accrual-start date in conservative mode; in
inclusive mode the accrual-start day itself already earns one day of
interest (see the counterexample). -/
theorem c2_zero_window_amended {now : Date} {inv : Investment} {c d : Date} {b : Bool}
    (hacc : accruingStatus inv.status = true)
    (hcts : getField inv.confirmedAt inv.confirmed_at = some (TS.iso c))
    (hcv : c.Valid)
    (hlock : getField inv.lockupEndDate inv.lockup_end_date ≠ some TS.malformed)
    (hd : toRD d ≤ toRD (nextDay c))
    (hmode : b = false ∨ toRD d < toRD (nextDay c)) :
    ∃ r, calculate_investment_value now (some inv) (some (TS.iso d)) b = Except.ok r ∧
      r.total_earnings = 0 ∧ r.months_elapsed = 0 := by
  by_cases hlt : toRD d < toRD (nextDay c)
  · exact ⟨_, civ_early hacc hcts hlock hlt, rfl, rfl⟩
  · have hb : b = false := by
      rcases hmode with h | h
      · exact h
      · exact absurd h hlt
    subst hb
    have hge : toRD (nextDay c) ≤ toRD d := by omega
    have hsv : (nextDay c).Valid := nextDay_valid hcv
    have hps : prevDay (nextDay c) = c := prevDay_nextDay hcv
    have hsucc : toRD (nextDay c) = toRD c + 1 := toRD_nextDay c hcv
    have hfl : find_last_completed_month_end (nextDay c) d = prevDay (nextDay c) := by
      apply find_last_none hge
      have hme := toRD_monthEnd (nextDay c)
      have hdle : ((nextDay c).day : ℤ) ≤
          (days_in_month (nextDay c).year (nextDay c).month : ℤ) := by
        exact_mod_cast hsv.2.2.2.2
      omega
    have hempty : build_accrual_segments (nextDay c)
        (find_last_completed_month_end (nextDay c) d) = [] := by
      rw [hfl, hps]
      exact build_eq_empty (by omega)
    refine ⟨_, civ_main hacc hcts hlock hge, ?_, ?_⟩
    · dsimp only
      simp only [Bool.false_eq_true, if_false, hempty]
      split_ifs <;> exact round2_zero
    · dsimp only
      simp only [Bool.false_eq_true, if_false, hempty]
      rfl

/-- C2 witness: the amended theorem applied one day before accrual start. -/
theorem c2_witness :
    ∃ r, calculate_investment_value ⟨2024,1,1⟩
      (some ⟨10000, some "active", some (TS.iso ⟨2024,1,1⟩), none, none, none,
        some "1-year", none, some "compounding", none⟩)
      (some (TS.iso ⟨2024,1,1⟩)) true = Except.ok r ∧
      r.total_earnings = 0 ∧ r.months_elapsed = 0 :=
  @c2_zero_window_amended ⟨2024,1,1⟩
    ⟨10000, some "active", some (TS.iso ⟨2024,1,1⟩), none, none, none,
      some "1-year", none, some "compounding", none⟩
    ⟨2024,1,1⟩ ⟨2024,1,1⟩ true (by decide) (by decide) (by decide) (by decide)
    (by decide) (Or.inr (by decide))

/-- C9: in conservative mode, when the evaluation date is on/after the
accrual-start date but no calendar month-end falls strictly before it,
`find_last_completed_month_end` returns the day before the accrual start,
the segment list is empty, and the valuation reports zero earnings and zero
months. -/
theorem c9_conservative_empty_window {now : Date} {inv : Investment} {c d : Date}
    (hacc : accruingStatus inv.status = true)
    (hcts : getField inv.confirmedAt inv.confirmed_at = some (TS.iso c))
    (hcv : c.Valid)
    (hlock : getField inv.lockupEndDate inv.lockup_end_date ≠ some TS.malformed)
    (hge : toRD (nextDay c) ≤ toRD d)
    (hnome : ¬ dateLt (monthEnd (nextDay c)) d = true) :
    find_last_completed_month_end (nextDay c) d = prevDay (nextDay c) ∧
    build_accrual_segments (nextDay c)
      (find_last_completed_month_end (nextDay c) d) = [] ∧
    ∃ r, calculate_investment_value now (some inv) (some (TS.iso d)) false =
      Except.ok r ∧ r.total_earnings = 0 ∧ r.months_elapsed = 0 := by
  have hmlt : toRD d ≤ toRD (monthEnd (nextDay c)) := by
    have h : ¬ toRD (monthEnd (nextDay c)) < toRD d :=
      fun h' => hnome (dateLt_iff.mpr h')
    omega
  have hfl := find_last_none hge hmlt
  have hps : prevDay (nextDay c) = c := prevDay_nextDay hcv
  have hsucc : toRD (nextDay c) = toRD c + 1 := toRD_nextDay c hcv
  have hempty : build_accrual_segments (nextDay c)
      (find_last_completed_month_end (nextDay c) d) = [] := by
    rw [hfl, hps]
    exact build_eq_empty (by omega)
  refine ⟨hfl, hempty, _, civ_main hacc hcts hlock hge, ?_, ?_⟩
  · dsimp only
    simp only [Bool.false_eq_true, if_false, hempty]
    split_ifs <;> exact round2_zero
  · dsimp only
    simp only [Bool.false_eq_true, if_false, hempty]
    rfl

/-- C9 witness: applied on an eleven-day window inside January. -/
theorem c9_witness :
    find_last_completed_month_end (nextDay ⟨2024,1,1⟩) ⟨2024,1,20⟩ =
      prevDay (nextDay ⟨2024,1,1⟩) ∧
    build_accrual_segments (nextDay ⟨2024,1,1⟩)
      (find_last_completed_month_end (nextDay ⟨2024,1,1⟩) ⟨2024,1,20⟩) = [] ∧
    ∃ r, calculate_investment_value ⟨2024,1,20⟩
      (some ⟨10000, some "active", some (TS.iso ⟨2024,1,1⟩), none, none, none,
        some "1-year", none, some "compounding", none⟩)
      (some (TS.iso ⟨2024,1,20⟩)) false =
      Except.ok r ∧ r.total_earnings = 0 ∧ r.months_elapsed = 0 :=
  @c9_conservative_empty_window ⟨2024,1,20⟩
    ⟨10000, some "active", some (TS.iso ⟨2024,1,1⟩), none, none, none,
      some "1-year", none, some "compounding", none⟩
    ⟨2024,1,1⟩ ⟨2024,1,20⟩ (by decide) (by decide) (by decide) (by decide)
    (by decide) (by decide)

/-- C3: for an accruing snapshot whose stored `lockupEndDate` (when present)
is on/after the accrual-start date — as the data model guarantees, since it
is precomputed as `confirmedAt` plus the lockup years — `is_withdrawable` is
true exactly when the evaluation date is on/after the resolved lockup end
date, for both valuation modes. -/
theorem c3_lockup_boundary {now : Date} {inv : Investment} {c d : Date} {b : Bool}
    (hacc : accruingStatus inv.status = true)
    (hcts : getField inv.confirmedAt inv.confirmed_at = some (TS.iso c))
    (hcv : c.Valid)
    (hlock : getField inv.lockupEndDate inv.lockup_end_date ≠ some TS.malformed)
    (hstored : ∀ l, getField inv.lockupEndDate inv.lockup_end_date = some (TS.iso l) →
      toRD (nextDay c) ≤ toRD l) :
    ∃ r, calculate_investment_value now (some inv) (some (TS.iso d)) b = Except.ok r ∧
      (r.is_withdrawable = true ↔ toRD (resolvedLockupEnd inv c) ≤ toRD d) := by
  have hsucc : toRD (nextDay c) = toRD c + 1 := toRD_nextDay c hcv
  have hres : toRD (nextDay c) ≤ toRD (resolvedLockupEnd inv c) := by
    unfold resolvedLockupEnd
    rcases hl : getField inv.lockupEndDate inv.lockup_end_date with _ | ts
    · dsimp only
      have hay := toRD_addYears_ge hcv
        (show 1 ≤ (if getField inv.lockupPeriod inv.lockup_period = some "3-year"
          then 3 else 1) from by split_ifs <;> norm_num)
      omega
    · cases ts with
      | malformed => exact absurd hl hlock
      | iso l =>
        dsimp only
        exact hstored l hl
  by_cases hd : toRD d < toRD (nextDay c)
  · refine ⟨_, civ_early hacc hcts hlock hd, ?_⟩
    dsimp only
    constructor
    · intro h
      exact absurd h (by simp)
    · intro h
      exfalso
      omega
  · refine ⟨_, civ_main hacc hcts hlock (by omega), ?_⟩
    dsimp only
    exact dateLe_iff

/-- C3 witness: a stored lockup end 2025-01-01 for a 2024-01-01 confirmation,
evaluated 2025-06-01 (withdrawable). -/
theorem c3_witness :
    ∃ r, calculate_investment_value ⟨2025,6,1⟩
      (some ⟨10000, some "active", some (TS.iso ⟨2024,1,1⟩), none,
        some (TS.iso ⟨2025,1,1⟩), none, some "1-year", none, some "compounding", none⟩)
      (some (TS.iso ⟨2025,6,1⟩)) false = Except.ok r ∧
      (r.is_withdrawable = true ↔
        toRD (resolvedLockupEnd
          ⟨10000, some "active", some (TS.iso ⟨2024,1,1⟩), none,
            some (TS.iso ⟨2025,1,1⟩), none, some "1-year", none,
            some "compounding", none⟩ ⟨2024,1,1⟩) ≤ toRD ⟨2025,6,1⟩) :=
  @c3_lockup_boundary ⟨2025,6,1⟩
    ⟨10000, some "active", some (TS.iso ⟨2024,1,1⟩), none,
      some (TS.iso ⟨2025,1,1⟩), none, some "1-year", none, some "compounding", none⟩
    ⟨2024,1,1⟩ ⟨2025,6,1⟩ false (by decide) (by decide) (by decide) (by decide)
    (by
      intro l hl
      simp only [getField] at hl
      injection hl with h1
      injection h1 with h2
      subst h2
      decide)

/-- C5 counterexample: a snapshot with unparseable `confirmedAt` but
non-accruing status (`draft`) returns the neutral result instead of
surfacing an error — the malformed timestamp is never parsed, refuting the
claim's universal quantification. -/
theorem c5_counterexample :
    calculate_investment_value ⟨2024,1,1⟩
      (some ⟨1000, some "draft", some TS.malformed, none, none, none,
        some "1-year", none, some "compounding", none⟩)
      (some (TS.iso ⟨2024,6,1⟩)) false =
      Except.ok ⟨1000, 0, 0, false, none, 0⟩ := by
  rfl

/-- C5 (amended): a malformed timestamp propagates as `invalidTimestamp`
exactly when the code reaches its parse — an accruing status with malformed
(resolved) `confirmedAt`, or an accruing status with parseable `confirmedAt`
and malformed `as_of_date`; and on inputs whose reached timestamps all
parse, the function always returns a result (it is total). -/
theorem c5_error_propagation_amended :
    (∀ (now : Date) (inv : Investment) (asOf : Option TS) (b : Bool),
        accruingStatus inv.status = true →
        getField inv.confirmedAt inv.confirmed_at = some TS.malformed →
        calculate_investment_value now (some inv) asOf b =
          Except.error CalcError.invalidTimestamp) ∧
    (∀ (now : Date) (inv : Investment) (c : Date) (b : Bool),
        accruingStatus inv.status = true →
        getField inv.confirmedAt inv.confirmed_at = some (TS.iso c) →
        calculate_investment_value now (some inv) (some TS.malformed) b =
          Except.error CalcError.invalidTimestamp) ∧
    (∀ (now : Date) (inv : Investment) (asOf : Option TS) (b : Bool),
        getField inv.confirmedAt inv.confirmed_at ≠ some TS.malformed →
        getField inv.lockupEndDate inv.lockup_end_date ≠ some TS.malformed →
        asOf ≠ some TS.malformed →
        ∃ r, calculate_investment_value now (some inv) asOf b = Except.ok r) := by
  refine ⟨?_, ?_, ?_⟩
  · intro now inv asOf b hacc hm
    simp [calculate_investment_value, hacc, hm, to_utc_start_of_day]
  · intro now inv c b hacc hc
    simp [calculate_investment_value, hacc, hc, to_utc_start_of_day]
  · intro now inv asOf b h1 h2 h3
    by_cases hacc : accruingStatus inv.status = true
    · rcases hc : getField inv.confirmedAt inv.confirmed_at with _ | cts
      · exact ⟨⟨inv.amount, 0, 0, false, none, 0⟩,
          by simp [calculate_investment_value, hacc, hc]⟩
      · cases cts with
        | malformed => exact absurd hc h1
        | iso c =>
          rcases hl : getField inv.lockupEndDate inv.lockup_end_date with _ | lts
          · rcases asOf with _ | t
            · simp only [calculate_investment_value, hacc, hc, hl,
                to_utc_start_of_day, eq_self_iff_true, not_true, if_false]
              split_ifs <;> exact ⟨_, rfl⟩
            · cases t with
              | malformed => exact absurd rfl h3
              | iso d =>
                simp only [calculate_investment_value, hacc, hc, hl,
                  to_utc_start_of_day, eq_self_iff_true, not_true, if_false]
                split_ifs <;> exact ⟨_, rfl⟩
          · cases lts with
            | malformed => exact absurd hl h2
            | iso l =>
              rcases asOf with _ | t
              · simp only [calculate_investment_value, hacc, hc, hl,
                  to_utc_start_of_day, eq_self_iff_true, not_true, if_false]
                split_ifs <;> exact ⟨_, rfl⟩
              · cases t with
                | malformed => exact absurd rfl h3
                | iso d =>
                  simp only [calculate_investment_value, hacc, hc, hl,
                    to_utc_start_of_day, eq_self_iff_true, not_true, if_false]
                  split_ifs <;> exact ⟨_, rfl⟩
    · exact ⟨⟨inv.amount, 0, 0, false, none, 0⟩,
        by simp [calculate_investment_value, hacc]⟩

/-- C5 witness: the propagation clause applied to an active snapshot with a
malformed `confirmedAt`. -/
theorem c5_witness :
    calculate_investment_value ⟨2024,1,1⟩
      (some ⟨1000, some "active", some TS.malformed, none, none, none,
        some "1-year", none, some "compounding", none⟩)
      (some (TS.iso ⟨2024,6,1⟩)) false =
      Except.error CalcError.invalidTimestamp :=
  c5_error_propagation_amended.1 ⟨2024,1,1⟩
    ⟨1000, some "active", some TS.malformed, none, none, none,
      some "1-year", none, some "compounding", none⟩
    (some (TS.iso ⟨2024,6,1⟩)) false (by decide) (by decide)

theorem calculate_compounding_eq (p : ℚ) (segs : List Segment) (mr apy : ℚ) :
    calculate_compounding p segs mr apy = foldComp mr (apy / 365) (p, 0) segs := rfl

theorem calculate_monthly_payout_eq (p : ℚ) (segs : List Segment) (mr apy : ℚ) :
    calculate_monthly_payout p segs mr apy =
      (p, foldPay p (round2 (p * mr)) (apy / 365) 0 segs) := rfl

theorem cvte_grow {amt : ℚ} (ha0 : 0 ≤ amt) (hac : CentMul amt)
    (lp pf : Option String) {s : Date} (hsv : s.Valid) (e : Date) :
    0 ≤ round2 (if pf = some "compounding"
        then calculate_compounding amt (build_accrual_segments s e)
          (RATES_get lp / 12) (RATES_get lp)
        else calculate_monthly_payout amt (build_accrual_segments s e)
          (RATES_get lp / 12) (RATES_get lp)).2 ∧
    amt ≤ round2 (if pf = some "compounding"
        then calculate_compounding amt (build_accrual_segments s e)
          (RATES_get lp / 12) (RATES_get lp)
        else calculate_monthly_payout amt (build_accrual_segments s e)
          (RATES_get lp / 12) (RATES_get lp)).1 := by
  have ha := RATES_get_nonneg lp
  have hmr : (0 : ℚ) ≤ RATES_get lp / 12 := by positivity
  have hdr : (0 : ℚ) ≤ RATES_get lp / 365 := by positivity
  by_cases hpf : pf = some "compounding"
  · rw [if_pos hpf, calculate_compounding_eq]
    obtain ⟨⟨hg1, _⟩, hInv⟩ := foldComp_build_grow hmr hdr hsv e (amt, 0)
      ⟨ha0, le_refl 0, hac, centMul_zero⟩
    constructor
    · exact round2_nonneg hInv.2.1
    · rw [round2_eq_self hInv.2.2.1]
      exact hg1
  · rw [if_neg hpf, calculate_monthly_payout_eq]
    dsimp only
    have hmi : (0 : ℚ) ≤ round2 (amt * (RATES_get lp / 12)) :=
      round2_nonneg (by positivity)
    have hmic : CentMul (round2 (amt * (RATES_get lp / 12))) := round2_centMul _
    obtain ⟨_, hg0, _⟩ := foldPay_build_grow ha0 hmi hmic hdr hsv e 0
      (le_refl 0) centMul_zero
    exact ⟨round2_nonneg hg0, le_of_eq (round2_eq_self hac).symm⟩

theorem cvte_mono {amt : ℚ} (ha0 : 0 ≤ amt) (hac : CentMul amt)
    (lp pf : Option String) {s e1 e2 : Date} (hsv : s.Valid) (he1v : e1.Valid)
    (h12 : toRD e1 ≤ toRD e2) :
    round2 (if pf = some "compounding"
        then calculate_compounding amt (build_accrual_segments s e1)
          (RATES_get lp / 12) (RATES_get lp)
        else calculate_monthly_payout amt (build_accrual_segments s e1)
          (RATES_get lp / 12) (RATES_get lp)).2 ≤
      round2 (if pf = some "compounding"
        then calculate_compounding amt (build_accrual_segments s e2)
          (RATES_get lp / 12) (RATES_get lp)
        else calculate_monthly_payout amt (build_accrual_segments s e2)
          (RATES_get lp / 12) (RATES_get lp)).2 ∧
    (pf = some "compounding" →
      round2 (if pf = some "compounding"
        then calculate_compounding amt (build_accrual_segments s e1)
          (RATES_get lp / 12) (RATES_get lp)
        else calculate_monthly_payout amt (build_accrual_segments s e1)
          (RATES_get lp / 12) (RATES_get lp)).1 ≤
      round2 (if pf = some "compounding"
        then calculate_compounding amt (build_accrual_segments s e2)
          (RATES_get lp / 12) (RATES_get lp)
        else calculate_monthly_payout amt (build_accrual_segments s e2)
          (RATES_get lp / 12) (RATES_get lp)).1) := by
  have ha := RATES_get_nonneg lp
  by_cases hpf : pf = some "compounding"
  · rw [if_pos hpf, if_pos hpf, calculate_compounding_eq, calculate_compounding_eq]
    obtain ⟨h1, h2⟩ := foldComp_build_mono ha hsv he1v h12 (amt, 0)
      ⟨ha0, le_refl 0, hac, centMul_zero⟩
    exact ⟨round2_mono h2, fun _ => round2_mono h1⟩
  · rw [if_neg hpf, if_neg hpf, calculate_monthly_payout_eq, calculate_monthly_payout_eq]
    dsimp only
    constructor
    · exact round2_mono (foldPay_build_mono ha0 ha hsv he1v h12 0 (le_refl 0) centMul_zero)
    · intro h
      exact absurd h hpf

/-- C7: for a fixed data-model-conforming snapshot (accruing status,
parseable `confirmedAt`, non-negative whole-cent principal — the $1,000
minimum in $10 increments implies both) and fixed mode, `total_earnings` is
non-decreasing in the evaluation date for both payment frequencies, and for
`compounding` so is `current_value`. -/
theorem c7_monotonicity {now : Date} {inv : Investment} {c d1 d2 : Date} {b : Bool}
    (hacc : accruingStatus inv.status = true)
    (hcts : getField inv.confirmedAt inv.confirmed_at = some (TS.iso c))
    (hcv : c.Valid)
    (hlock : getField inv.lockupEndDate inv.lockup_end_date ≠ some TS.malformed)
    (hd1v : d1.Valid) (_hd2v : d2.Valid) (h12 : toRD d1 ≤ toRD d2)
    (ha0 : 0 ≤ inv.amount) (hac : CentMul inv.amount) :
    ∃ r1 r2,
      calculate_investment_value now (some inv) (some (TS.iso d1)) b = Except.ok r1 ∧
      calculate_investment_value now (some inv) (some (TS.iso d2)) b = Except.ok r2 ∧
      r1.total_earnings ≤ r2.total_earnings ∧
      (getField inv.paymentFrequency inv.payment_frequency = some "compounding" →
        r1.current_value ≤ r2.current_value) := by
  have hsv : (nextDay c).Valid := nextDay_valid hcv
  have hps : prevDay (nextDay c) = c := prevDay_nextDay hcv
  have hsucc : toRD (nextDay c) = toRD c + 1 := toRD_nextDay c hcv
  by_cases hA : toRD d2 < toRD (nextDay c)
  · refine ⟨_, _, civ_early hacc hcts hlock (by omega),
      civ_early hacc hcts hlock hA, ?_, ?_⟩
    · exact le_refl _
    · intro _
      exact le_refl _
  · by_cases hB : toRD d1 < toRD (nextDay c)
    · obtain ⟨hg2, hg1⟩ := cvte_grow ha0 hac
        (getField inv.lockupPeriod inv.lockup_period)
        (getField inv.paymentFrequency inv.payment_frequency) hsv
        (if b = true then d2 else find_last_completed_month_end (nextDay c) d2)
      refine ⟨_, _, civ_early hacc hcts hlock hB,
        civ_main hacc hcts hlock (by omega), ?_, ?_⟩
      · exact hg2
      · intro _
        exact hg1
    · have he1v : Date.Valid
          (if b = true then d1 else find_last_completed_month_end (nextDay c) d1) := by
        by_cases hb : b = true
        · rw [if_pos hb]
          exact hd1v
        · rw [if_neg hb]
          exact find_last_valid hsv (by rw [hps]; exact hcv)
      have he12 : toRD (if b = true then d1
            else find_last_completed_month_end (nextDay c) d1) ≤
          toRD (if b = true then d2
            else find_last_completed_month_end (nextDay c) d2) := by
        by_cases hb : b = true
        · rw [if_pos hb, if_pos hb]
          exact h12
        · rw [if_neg hb, if_neg hb]
          exact find_last_mono hsv (by rw [hps]; omega) h12
      obtain ⟨hte, hcvf⟩ := cvte_mono ha0 hac
        (getField inv.lockupPeriod inv.lockup_period)
        (getField inv.paymentFrequency inv.payment_frequency) hsv he1v he12
      refine ⟨_, _, civ_main hacc hcts hlock (by omega),
        civ_main hacc hcts hlock (by omega), ?_, ?_⟩
      · exact hte
      · intro hpf
        exact hcvf hpf

/-- C7 witness: monotonicity across the accrual boundary for the standard
snapshot, conservative mode. -/
theorem c7_witness :
    ∃ r1 r2,
      calculate_investment_value ⟨2024,1,1⟩
        (some ⟨10000, some "active", some (TS.iso ⟨2024,1,1⟩), none, none, none,
          some "1-year", none, some "compounding", none⟩)
        (some (TS.iso ⟨2024,1,1⟩)) false = Except.ok r1 ∧
      calculate_investment_value ⟨2024,1,1⟩
        (some ⟨10000, some "active", some (TS.iso ⟨2024,1,1⟩), none, none, none,
          some "1-year", none, some "compounding", none⟩)
        (some (TS.iso ⟨2024,4,1⟩)) false = Except.ok r2 ∧
      r1.total_earnings ≤ r2.total_earnings ∧
      (getField (some "compounding") (none : Option String) = some "compounding" →
        r1.current_value ≤ r2.current_value) :=
  @c7_monotonicity ⟨2024,1,1⟩
    ⟨10000, some "active", some (TS.iso ⟨2024,1,1⟩), none, none, none,
      some "1-year", none, some "compounding", none⟩
    ⟨2024,1,1⟩ ⟨2024,1,1⟩ ⟨2024,4,1⟩ false (by decide) (by decide) (by decide)
    (by decide) (by decide) (by decide) (by decide) (by norm_num)
    ⟨1000000, by norm_num⟩
